import Mathlib

/-!
Verification of the TranslateEndNote batch PDF translator against its
natural-language specification.

The Python sources are shallowly embedded:
* strings are `List Char` with the Python character classes modelled on the
  fragment the program exercises (ASCII plus the CJK Unified Ideograph
  ranges of the program's regular expression `CJK_PATTERN`);
* file-system and subprocess effects are inputs of the embedded functions
  (an `Except` value models a Python call that may raise);
* floating point widths are modelled as exact rationals, with Python's
  `round(x, 2)` modelled as round-half-to-even at two decimals.
-/

namespace TranslateEndNote

/-! ## Python string model -/

/-- A Python `str` is modelled as a list of characters. -/
abbrev Str := List Char

/-- Coerce a Lean string literal into the model. -/
def strL (s : String) : Str := s.data

/-- CJK Unified Ideograph test, from the source regular expression
`CJK_PATTERN = re.compile(r"[㐀-䶿一-鿿豈-﫿]")`. -/
def isCJK (c : Char) : Bool :=
  (0x3400 ≤ c.toNat && c.toNat ≤ 0x4dbf) ||
  (0x4e00 ≤ c.toNat && c.toNat ≤ 0x9fff) ||
  (0xf900 ≤ c.toNat && c.toNat ≤ 0xfaff)

/-- `contains_chinese_characters` (pdf_batch_translator.py line 139):
`bool(CJK_PATTERN.search(text))`. -/
def contains_chinese_characters (text : Str) : Bool := text.any isCJK

/-- Python `str.isdigit` on the ASCII fragment of a single character. -/
def pyIsDigit (c : Char) : Bool := 48 ≤ c.toNat && c.toNat ≤ 57

/-- Python `ch.isalpha()` on the fragment the repository manipulates:
ASCII letters and the CJK ideographs (which are alphabetic in Python). -/
def pyIsAlpha (c : Char) : Bool :=
  ('a' ≤ c && c ≤ 'z') || ('A' ≤ c && c ≤ 'Z') || isCJK c

/-- Python `str.isdigit`: nonempty and every character a digit. -/
def pyIsDigitStr (s : Str) : Bool := !s.isEmpty && s.all pyIsDigit

/-- Whitespace stripped by Python `str.strip()` (ASCII fragment):
space, tab, newline, carriage return, vertical tab, form feed. -/
def pyIsSpace (c : Char) : Bool :=
  c.toNat == 32 || c.toNat == 9 || c.toNat == 10 || c.toNat == 13 ||
  c.toNat == 11 || c.toNat == 12

/-- Python `str.strip()`. -/
def pyStrip (s : Str) : Str :=
  ((s.dropWhile pyIsSpace).reverse.dropWhile pyIsSpace).reverse

/-- Python `str.lower()` on the ASCII fragment. -/
def pyLowerChar (c : Char) : Char :=
  if 'A' ≤ c && c ≤ 'Z' then Char.ofNat (c.toNat + 32) else c

/-- Python `str.lower()` applied characterwise. -/
def pyLower (s : Str) : Str := s.map pyLowerChar

/-- Python `str.split(sep)` for a one-character separator: no collapsing of
empty fields, `"".split(sep) = [""]`. -/
def splitOnChar (sep : Char) : Str → List Str
  | [] => [[]]
  | c :: cs =>
    if c = sep then [] :: splitOnChar sep cs
    else
      match splitOnChar sep cs with
      | [] => [[c]]
      | h :: t => (c :: h) :: t

/-- Python `sep.join(parts)` for a one-character separator. -/
def joinWithChar (sep : Char) : List Str → Str
  | [] => []
  | [x] => x
  | x :: y :: t => x ++ sep :: joinWithChar sep (y :: t)

/-- Python `int(s)` for a digit string: left fold over decimal digits. -/
def strToNat (s : Str) : Nat := s.foldl (fun a c => 10 * a + (c.toNat - 48)) 0

/-! ## The Author-YYYY-Title file-name validator

Direct translation of `is_normalized_name` (pdf_batch_translator.py
lines 298-313; an identical copy lives in pdf_orphan_metadata_manager.py). -/

/-- `is_normalized_name(stem)` from the source: reject CJK anywhere, split on
`'-'`, require at least three parts, a four-digit year in `[1900, 2099]`,
a digit-free author with a letter, and a letter in the joined title. -/
def is_normalized_name (stem : Str) : Bool :=
  if contains_chinese_characters stem then false
  else
    match splitOnChar '-' stem with
    | author :: year :: rest =>
      if rest.isEmpty then false
      else
        (pyIsDigitStr year && 1900 ≤ strToNat year &&
          strToNat year ≤ 2099 && year.length == 4) &&
        !(author.any pyIsDigit) &&
        (author.any pyIsAlpha) &&
        ((joinWithChar '-' rest).any pyIsAlpha)
    | _ => false

/-- The claim's acceptance condition, stated in the spec's own words:
no CJK character, at least three dash-separated parts, an author part with
no digit and at least one letter, a year part of exactly four digits whose
value lies in `[1900, 2099]`, and at least one letter in the remaining
(title) parts. -/
def nameClaimCondition (stem : Str) : Prop :=
  (∀ c ∈ stem, isCJK c = false) ∧
  3 ≤ (splitOnChar '-' stem).length ∧
  (∀ p ∈ (splitOnChar '-' stem).take 1, (∀ c ∈ p, pyIsDigit c = false) ∧ ∃ c ∈ p, pyIsAlpha c = true) ∧
  (∀ p ∈ ((splitOnChar '-' stem).drop 1).take 1,
      p.length = 4 ∧ (∀ c ∈ p, pyIsDigit c = true) ∧
      1900 ≤ strToNat p ∧ strToNat p ≤ 2099) ∧
  (∃ p ∈ (splitOnChar '-' stem).drop 2, ∃ c ∈ p, pyIsAlpha c = true)

/-! ## JSON and embedded-metadata model

`fitz` documents are modelled by their list of embedded files
(`doc.embfile_names()` / `doc.embfile_get`); an embedded payload either
fails to decode, is empty (falsy bytes), or parses into a JSON value. -/

/-- Minimal JSON values: enough for the metadata attachments the
repository writes and reads. -/
inductive Json where
  | str (s : Str)
  | num (q : ℚ)
  | arr (elems : List Json)
  | obj (fields : List (Str × Json))

/-- Python `dict.get(key)` on a JSON object: first binding wins (the
writers never repeat a key); `none` when the value is not an object or
the key is absent. -/
def Json.lookup : Json → Str → Option Json
  | .obj fields, key => (fields.find? (fun kv => kv.1 == key)).map (·.2)
  | _, _ => none

/-- An embedded file's bytes as the metadata reader sees them. -/
inductive EmbPayload where
  | empty                 -- falsy content (`if not meta_content`)
  | unparseable           -- `json.loads` / decode raises
  | json (j : Json)       -- parses into a JSON value

/-- A `fitz` document restricted to what the metadata code touches:
its named embedded files, in insertion order. -/
structure EmbDoc where
  embfiles : List (Str × EmbPayload)

/-- The canonical attachment name `pdf2zh.meta.json`. -/
def metaName : Str := strL "pdf2zh.meta.json"

/-- `doc.embfile_names()`. -/
def EmbDoc.names (d : EmbDoc) : List Str := d.embfiles.map (·.1)

/-- `doc.embfile_get(name)`: first embedded file with that name. -/
def EmbDoc.getFile (d : EmbDoc) (name : Str) : Option EmbPayload :=
  (d.embfiles.find? (fun kv => kv.1 == name)).map (·.2)

/-- Outcomes reported by `check_translation_metadata_status`
(pdf_batch_translator.py lines 161-199), as tags for the second
component of its returned pair. -/
inductive MetaReadTag where
  | alreadyTranslated | markedUntranslated | unknownStatus
  | noMetadataFound | metadataEmpty | parseError | checkFailed
  deriving DecidableEq

/-- `check_translation_metadata_status(pdf_path)`: the argument models the
`fitz.open` interaction (`Except.error` = any exception inside the
`try` block, caught at line 197 and mapped to a non-excluding result).
Within the block: absence of the canonical name, falsy content, a parse
error, and the three status outcomes follow lines 174-195. A JSON
payload that is not an object makes `metadata.get` raise, which the same
outer handler catches. -/
def check_translation_metadata_status (opened : Except Unit EmbDoc) :
    Bool × MetaReadTag :=
  match opened with
  | .error _ => (false, .checkFailed)
  | .ok doc =>
    if metaName ∈ doc.names then
      match doc.getFile metaName with
      | some .empty => (false, .metadataEmpty)
      | some .unparseable => (false, .parseError)
      | some (.json j) =>
        match j with
        | .obj _ =>
          match j.lookup (strL "pdf2zh.status") with
          | some (.str s) =>
            if s = strL "translated" then (true, .alreadyTranslated)
            else if s = strL "untranslated" then (false, .markedUntranslated)
            else (false, .unknownStatus)
          | _ => (false, .unknownStatus)
        | _ => (false, .checkFailed)
      | none => (false, .checkFailed)
    else (false, .noMetadataFound)

/-- A page size entry `{"w": ..., "h": ...}` in points. -/
structure Size where
  w : ℚ
  h : ℚ
  deriving DecidableEq

/-- Serialization of a size list as the writers produce it. -/
def sizesJson (sizes : List Size) : Json :=
  .arr (sizes.map (fun s => .obj [(strL "w", .num s.w), (strL "h", .num s.h)]))

/-- `create_translation_metadata(status, source_sizes, result_sizes, gap_pt)`
(pdf_batch_translator.py lines 540-561): a FLAT JSON object keyed by
`"pdf2zh.status"` etc.; the model field depends on the configured
translation service, and the result sizes are added only when truthy
(nonempty). `runTime` stands for `datetime.now(...)`. -/
def create_translation_metadata (service siliconflowModel : Str)
    (status : Str) (sourceSizes : List Size) (resultSizes : List Size)
    (gapPt : ℚ) (runTime : Str) : Json :=
  .obj
    ([(strL "pdf2zh.status", .str status),
      (strL "pdf2zh.run_time_utc", .str runTime)] ++
     (if status = strL "translated" then
        (if service = strL "siliconflow_free" then
          [(strL "pdf2zh.model", .str (strL "Qwen/Qwen2.5-7B-Instruct"))]
         else if service = strL "siliconflow_pro" then
          [(strL "pdf2zh.model", .str siliconflowModel)]
         else []) ++
        [(strL "pdf2zh.source_page_sizes_pt", sizesJson sourceSizes),
         (strL "pdf2zh.gap_pt", .num gapPt)] ++
        (if resultSizes.isEmpty then []
         else [(strL "pdf2zh.result_page_sizes_pt", sizesJson resultSizes)])
      else []))

/-- `build_translated_meta(source_sizes, result_sizes, model_name, gap_pt)`
(pdf_pair_metadata_manager.py lines 269-279): a NESTED JSON object with a
single top-level key `"pdf2zh"`. -/
def build_translated_meta (sourceSizes resultSizes : List Size)
    (modelName : Str) (gapPt : ℚ) (runTime : Str) : Json :=
  .obj
    [(strL "pdf2zh",
      .obj
        [(strL "status", .str (strL "translated")),
         (strL "run_time_utc", .str runTime),
         (strL "model", .str modelName),
         (strL "gap_pt", .num gapPt),
         (strL "source_page_sizes_pt", sizesJson sourceSizes),
         (strL "result_page_sizes_pt", sizesJson resultSizes)])]

/-- `embed_metadata_attachment(pdf_path, metadata)`
(pdf_orphan_metadata_manager.py lines 175-203): if an embedded file with
the canonical name already exists, return `(True, "already_exists")`
without touching the document; otherwise `embfile_add` the payload and
save. The result pairs the returned value with the document state after
the call. -/
inductive EmbedTag where
  | alreadyExists | success
  deriving DecidableEq

def embed_metadata_attachment (doc : EmbDoc) (payload : EmbPayload) :
    (Bool × EmbedTag) × EmbDoc :=
  if metaName ∈ doc.names then ((true, .alreadyExists), doc)
  else ((true, .success), ⟨doc.embfiles ++ [(metaName, payload)]⟩)

/-- Number of embedded files carrying the canonical name. -/
def EmbDoc.metaCount (d : EmbDoc) : Nat :=
  (d.embfiles.filter (fun kv => kv.1 == metaName)).length

/-! ## Failure ledger -/

/-- The in-memory `failure_counts` dict: association list in insertion
order, unique keys (maintained by `dictSet`). -/
abbrev CountDict := List (Str × Nat)

/-- Python `counts.get(key, 0)`. -/
def dictGet (d : CountDict) (k : Str) : Option Nat :=
  (d.find? (fun e => e.1 == k)).map (·.2)

/-- Python `counts[key] = v`: overwrite in place, else append. -/
def dictSet (d : CountDict) (k : Str) (v : Nat) : CountDict :=
  match d with
  | [] => [(k, v)]
  | e :: rest => if e.1 == k then (k, v) :: rest else e :: dictSet rest k v

/-- Decimal digit character. -/
def digitChar (d : Nat) : Char :=
  match d with
  | 0 => '0' | 1 => '1' | 2 => '2' | 3 => '3' | 4 => '4'
  | 5 => '5' | 6 => '6' | 7 => '7' | 8 => '8' | 9 => '9'
  | _ => '0'

/-- Decimal rendering with an explicit fuel bound (`n` itself is enough
fuel since the value shrinks by a factor of ten per digit). -/
def natReprAux : Nat → Nat → Str
  | 0, _ => []
  | _ + 1, 0 => []
  | fuel + 1, n + 1 =>
    natReprAux fuel ((n + 1) / 10) ++ [digitChar ((n + 1) % 10)]

/-- Python `str(n)` for a natural number. -/
def natRepr (n : Nat) : Str :=
  if n = 0 then [ '0' ] else natReprAux n n

/-- Lexicographic order on strings by code point, as Python compares the
keys in `sorted(counts.items())`. -/
def strLeB : Str → Str → Bool
  | [], _ => true
  | _ :: _, [] => false
  | x :: xs, y :: ys => if x = y then strLeB xs ys else decide (x < y)

/-- Order on ledger entries used by `sorted(counts.items())` (keys are
unique, so the key decides). -/
def entryLe (a b : Str × Nat) : Prop := strLeB a.1 b.1 = true

instance : DecidableRel entryLe := fun a b => by
  unfold entryLe; infer_instance

/-- The text written by `increment_and_write_failure`
(pdf_batch_translator.py lines 376-384): one `f"{p},{c}\n"` line per
entry, entries sorted by key. -/
def writeLedger (d : CountDict) : Str :=
  ((d.insertionSort entryLe).map
    (fun e => e.1 ++ ',' :: natRepr e.2 ++ [ '\n' ])).flatten

/-- One iteration of the `for line in f` loop of `read_failure_counts`
(pdf_batch_translator.py lines 360-373): strip, `rsplit(",", 1)`, keep
only a two-field split whose second field `isdigit()`. -/
def splitOnFirst (sep : Char) : Str → Option (Str × Str)
  | [] => none
  | c :: cs =>
    if c = sep then some ([], cs)
    else (splitOnFirst sep cs).map (fun pr => (c :: pr.1, pr.2))

/-- Python `s.rsplit(sep, 1)` for a one-character separator, as an
optional pair (`none` when the separator does not occur, in which case
the original returns a one-element list that the reader skips). -/
def rsplitOnce (sep : Char) (s : Str) : Option (Str × Str) :=
  (splitOnFirst sep s.reverse).map (fun pr => (pr.2.reverse, pr.1.reverse))

def readLedgerLine (counts : CountDict) (line : Str) : CountDict :=
  match rsplitOnce ',' (pyStrip line) with
  | some (k, v) => if pyIsDigitStr v then dictSet counts k (strToNat v) else counts
  | none => counts

/-- `read_failure_counts(path)` on the file's text content (a missing
file reads as the empty string; the outer exception handler is not
reachable in the model). -/
def read_failure_counts (content : Str) : CountDict :=
  (splitOnChar '\n' content).foldl readLedgerLine []

/-! ## Paths and the exclusion evaluator -/

/-- A `pathlib.Path` restricted to what the evaluator touches.  `dir` is
the parent prefix including its trailing separator; `name` is the final
component and `stem` the name without its final suffix (the relation
between `name` and `stem` is `pathlib`'s and is irrelevant to the
theorems, so both are carried as data). -/
structure PyPath where
  dir : Str
  name : Str
  stem : Str

/-- Python `str(pdf_path)`. -/
def PyPath.full (p : PyPath) : Str := p.dir ++ p.name

/-- Python `needle in hay` on strings: contiguous substring test. -/
def strIn (needle : Str) : Str → Bool
  | [] => needle.isEmpty
  | c :: cs => List.isPrefixOf needle (c :: cs) || strIn needle cs

/-- `contains_exclusion_keywords(filename, keywords)`
(pdf_batch_translator.py lines 149-158): empty keyword list never
matches; otherwise case-lowered substring search. -/
def contains_exclusion_keywords (filename : Str) (keywords : List Str) : Bool :=
  if keywords.isEmpty then false
  else keywords.any (fun kw => strIn kw (pyLower filename))

/-- `get_page_count(pdf_path)` (pdf_batch_translator.py lines 339-351):
try `fitz`, fall back to `PyPDF2`, and only when both raise return
`None`. The two `Except` inputs model the two library calls. -/
def get_page_count (fitzResult pypdfResult : Except Unit Nat) : Option Nat :=
  match fitzResult with
  | .ok n => some n
  | .error _ =>
    match pypdfResult with
    | .ok n => some n
    | .error _ => none

/-- Result tags of `detect_chinese_content_via_vlm`
(pdf_batch_translator.py lines 202-232). -/
inductive VlmTag where
  | moduleNotAvailable | detectionDisabled | detected | detectionFailed
  deriving DecidableEq

/-- Everything outside the evaluator's own logic, passed in as data: the
seven configured skip switches, the two size/page limits, and the
observable outcomes of the file-system and collaborator interactions. -/
structure ExclusionEnv where
  skipTranslatedByMetadata : Bool
  skipMaxFileSize : Bool
  skipMaxPages : Bool
  skipFilenameFormatCheck : Bool
  skipFilenameContainsChinese : Bool
  skipContainsSkipKeywords : Bool
  skipChinesePdfVlm : Bool
  maxPages : Nat
  maxSizeBytes : Nat
  statSize : Nat                      -- pdf_path.stat().st_size
  backupExists : Bool                 -- backup_path.exists()
  metaOpen : Except Unit EmbDoc       -- fitz.open inside the metadata check
  fitzPageCount : Except Unit Nat     -- fitz page_count
  pypdfPageCount : Except Unit Nat    -- PyPDF2 fallback page count
  hasVlmModule : Bool                 -- _HAS_VLM_DETECT
  vlmCounts : Except Unit (Nat × Nat) -- (chinese, non-chinese) page counts

/-- `detect_chinese_content_via_vlm(pdf_path)`: module guard, switch
guard, then the collaborator call; an exception maps to a non-excluding
result (line 230); otherwise Chinese-dominant means
`chinese_count >= non_chinese_count`. -/
def detect_chinese_content_via_vlm (env : ExclusionEnv) : Bool × VlmTag :=
  if !env.hasVlmModule then (false, .moduleNotAvailable)
  else if !env.skipChinesePdfVlm then (false, .detectionDisabled)
  else
    match env.vlmCounts with
    | .error _ => (false, .detectionFailed)
    | .ok (zh, nonZh) => (decide (nonZh ≤ zh), .detected)

/-- The twelve exclusion tags of `should_exclude_from_processing`.  The
two parameterized reasons `pages_gt_{MAX_PAGES}` and
`size_gt_{MAX_SIZE_BYTES}` are the constructors `pagesGtMax` /
`sizeGtMax`. -/
inductive ExcludeReason where
  | tooManyFailures | isBackupOriginal | isGeneratedOutput
  | alreadyTranslatedByMetadata | containsExclusionKeywords | backupExists
  | filenameContainsChinese | badNamePattern | pageCountFailed
  | pagesGtMax | sizeGtMax | chinesePdfVlm
  deriving DecidableEq

/-- The tail of `should_exclude_from_processing` once a page count has
been read (pdf_batch_translator.py lines 282-295): the page limit, the
size limit, and the language-labeling check, in that order. -/
def exclusionTail (env : ExclusionEnv) (pages : Nat) : Option ExcludeReason :=
  if env.skipMaxPages && decide (env.maxPages < pages) then
    some .pagesGtMax
  else if env.skipMaxFileSize && decide (env.maxSizeBytes ≤ env.statSize) then
    some .sizeGtMax
  else if env.skipChinesePdfVlm && (detect_chinese_content_via_vlm env).1 then
    some .chinesePdfVlm
  else none

/-- `should_exclude_from_processing(pdf_path, exclusion_keywords,
failure_counts)` (pdf_batch_translator.py lines 235-295), translated
branch for branch; `none` models the non-excluding `(False, "")`. -/
def should_exclude_from_processing (env : ExclusionEnv) (p : PyPath)
    (keywords : List Str) (counts : CountDict) : Option ExcludeReason :=
  if 3 ≤ (dictGet counts p.full).getD 0 then some .tooManyFailures
  else if (strL "_original.pdf").isSuffixOf (pyLower p.name) then
    some .isBackupOriginal
  else if (strL ".mono.pdf").isSuffixOf (pyLower p.name) ||
      (strL ".dual.pdf").isSuffixOf (pyLower p.name) then
    some .isGeneratedOutput
  else if env.skipTranslatedByMetadata &&
      (check_translation_metadata_status env.metaOpen).1 then
    some .alreadyTranslatedByMetadata
  else if env.skipContainsSkipKeywords &&
      contains_exclusion_keywords p.name keywords then
    some .containsExclusionKeywords
  else if env.backupExists then some .backupExists
  else if env.skipFilenameContainsChinese &&
      contains_chinese_characters p.name then
    some .filenameContainsChinese
  else if env.skipFilenameFormatCheck && !is_normalized_name p.stem then
    some .badNamePattern
  else
    match get_page_count env.fitzPageCount env.pypdfPageCount with
    | none => some .pageCountFailed
    | some pages => exclusionTail env pages

/-- `increment_and_write_failure(pdf_path, counts, log_file)`: bump the
in-memory count and rewrite the whole ledger file (sorted by key);
returns the updated dict together with the file text written. -/
def increment_and_write_failure (p : PyPath) (counts : CountDict) :
    CountDict × Str :=
  let key := p.full
  let counts' := dictSet counts key ((dictGet counts key).getD 0 + 1)
  (counts', writeLedger counts')

/-- The spec's twelve rules, in its stated priority order. -/
def ruleOrder : List ExcludeReason :=
  [.tooManyFailures, .isBackupOriginal, .isGeneratedOutput,
   .alreadyTranslatedByMetadata, .containsExclusionKeywords, .backupExists,
   .filenameContainsChinese, .badNamePattern, .pageCountFailed,
   .pagesGtMax, .sizeGtMax, .chinesePdfVlm]

/-- Each rule's predicate, as the spec states it (rule content only; the
skip switches are assumed enabled by the C1 claim). -/
def rulePred (env : ExclusionEnv) (p : PyPath) (keywords : List Str)
    (counts : CountDict) : ExcludeReason → Bool
  | .tooManyFailures => decide (3 ≤ (dictGet counts p.full).getD 0)
  | .isBackupOriginal => (strL "_original.pdf").isSuffixOf (pyLower p.name)
  | .isGeneratedOutput =>
    (strL ".mono.pdf").isSuffixOf (pyLower p.name) ||
      (strL ".dual.pdf").isSuffixOf (pyLower p.name)
  | .alreadyTranslatedByMetadata =>
    (check_translation_metadata_status env.metaOpen).1
  | .containsExclusionKeywords => contains_exclusion_keywords p.name keywords
  | .backupExists => env.backupExists
  | .filenameContainsChinese => contains_chinese_characters p.name
  | .badNamePattern => !is_normalized_name p.stem
  | .pageCountFailed =>
    (get_page_count env.fitzPageCount env.pypdfPageCount).isNone
  | .pagesGtMax =>
    match get_page_count env.fitzPageCount env.pypdfPageCount with
    | some pages => decide (env.maxPages < pages)
    | none => false
  | .sizeGtMax => decide (env.maxSizeBytes ≤ env.statSize)
  | .chinesePdfVlm => (detect_chinese_content_via_vlm env).1

/-- All seven skip switches enabled, as the C1 claim assumes. -/
def ExclusionEnv.allSkipsEnabled (env : ExclusionEnv) : Prop :=
  env.skipTranslatedByMetadata = true ∧ env.skipMaxFileSize = true ∧
  env.skipMaxPages = true ∧ env.skipFilenameFormatCheck = true ∧
  env.skipFilenameContainsChinese = true ∧
  env.skipContainsSkipKeywords = true ∧ env.skipChinesePdfVlm = true

/-! ## Gap inference (pdf_pair_metadata_manager.py lines 44-70)

Widths are exact rationals; Python's `round(x, 2)` is modelled as
round-half-to-even at two decimal places. -/

/-- Round half to even, Python's `round(x)` on an exact value. -/
def roundHalfEven (q : ℚ) : ℤ :=
  let f := ⌊q⌋
  let r := q - f
  if r < 1 / 2 then f
  else if 1 / 2 < r then f + 1
  else if f % 2 = 0 then f else f + 1

/-- Python `round(x, 2)`. -/
def round2 (q : ℚ) : ℚ := (roundHalfEven (q * 100) : ℚ) / 100

/-- `statistics.median`: middle element of the sorted data for odd
length, mean of the two middle elements for even length (the empty case
raises and is unreachable where the repository calls it). -/
def pyMedian (l : List ℚ) : ℚ :=
  let s := l.insertionSort (· ≤ ·)
  let n := l.length
  if n % 2 = 1 then s.getD (n / 2) 0
  else (s.getD (n / 2 - 1) 0 + s.getD (n / 2) 0) / 2

/-- The candidate-collection loop of `infer_gap_pt`: per page of the
common prefix, `cand = round(nw - (lw + rw), 2)` with `rw = lw`; keep
`max(0.0, round(cand, 2))` when `cand >= -0.5`, drop the page
otherwise. -/
def inferGaps : List Size → List Size → List ℚ
  | [], _ => []
  | s :: ss, res =>
    match res with
    | [] => []
    | r :: rs =>
      (if -(1 / 2) ≤ round2 (r.w - (s.w + s.w)) then
        [max 0 (round2 (round2 (r.w - (s.w + s.w))))]
       else []) ++ inferGaps ss rs

/-- `infer_gap_pt(source_sizes, result_sizes)`: `0.0` when no candidate
survives, else the median of the candidates rounded to two decimals.
(`statistics.median` raises only on empty data, so the mean fallback in
the `except` branch is unreachable.) -/
def infer_gap_pt (sourceSizes resultSizes : List Size) : ℚ :=
  let gaps := inferGaps sourceSizes resultSizes
  if gaps.isEmpty then 0 else round2 (pyMedian gaps)

/-- The C8 claim's formula, in the spec's words: per page the candidate
is `max(0, result_width - 2 * source_width)` (small negative residuals
becoming zero), and the gap is the median of ALL the candidates. -/
def inferGapClaimC8 (sourceSizes resultSizes : List Size) : ℚ :=
  let cands := (sourceSizes.zip resultSizes).map
    (fun pr => max 0 (pr.2.w - 2 * pr.1.w))
  if cands.isEmpty then 0 else pyMedian cands

/-- The kept-candidate function of the amended C8 formula: drop a page
when its rounded residual is below `-0.5`, else clamp to zero and keep. -/
def amendedCand (pr : Size × Size) : Option ℚ :=
  if round2 (pr.2.w - 2 * pr.1.w) < -(1 / 2) then none
  else some (max 0 (round2 (round2 (pr.2.w - 2 * pr.1.w))))

/-- The amended formula: pages whose rounded residual is below `-0.5`
are dropped (not zeroed); residuals in `[-0.5, 0)` become zero; the gap
is the median of the kept candidates, rounded, `0.0` when none are
kept. -/
def inferGapAmended (sourceSizes resultSizes : List Size) : ℚ :=
  let cands := (sourceSizes.zip resultSizes).filterMap amendedCand
  if cands.isEmpty then 0 else round2 (pyMedian cands)

/-! ## Page-geometry merge and split

A `fitz` page is modelled by its geometry plus opaque content: copied
annotations carry their rectangles unchanged, page content is an opaque
value of a type parameter, and `show_pdf_page` placements are recorded
as (target rectangle, source content). -/

/-- `fitz.Rect(x0, y0, x1, y1)`. -/
structure Rect where
  x0 : ℚ
  y0 : ℚ
  x1 : ℚ
  y1 : ℚ
  deriving DecidableEq

/-- A source page: dimensions, opaque content, annotation rectangles. -/
structure SrcPage (α : Type) where
  width : ℚ
  height : ℚ
  content : α
  annots : List Rect

/-- A page of the merged output: the four boundary boxes (all set by
`_set_all_page_boxes`), the copied left content with the region it
occupies, the copied annotations, and the `show_pdf_page` overlay. -/
structure MergedPage (α β : Type) where
  media : Rect
  crop : Rect
  trim : Rect
  bleed : Rect
  base : α
  baseRegion : Rect
  annots : List Rect
  overlayTarget : Rect
  overlayContent : β

/-- Python-level failures surfaced by the merge/split functions. -/
inductive PyErr where
  | pageCountMismatch        -- ValueError: page counts differ
  | nameErrorOverwritePath   -- NameError: name 'overwrite_path' is not defined
  | nameErrorOpenPdf         -- NameError: name 'open_pdf' is not defined
  deriving DecidableEq

/-- The loop body shared by both merge implementations
(concatePDF.py lines 131-144, pdf_batch_translator.py lines 691-699):
`page = out[i]` is the copy of left page `i` (so `lw, lh` are the left
page's dimensions and the copied content and annotations are the left
page's); `_set_all_page_boxes(page, fitz.Rect(0, 0, 2*lw+gap, lh))`
sets all four boundary boxes; `page.show_pdf_page(fitz.Rect(lw+gap, 0,
2*lw+gap, lh), right_doc, i)` renders the right page into the right
half.  The left content keeps its original region `(0,0)-(lw,lh)`. -/
def mergePage (gap : ℚ) (lp : SrcPage α) (rp : SrcPage β) : MergedPage α β :=
  let lw := lp.width
  let lh := lp.height
  let newRect : Rect := ⟨0, 0, 2 * lw + gap, lh⟩
  { media := newRect, crop := newRect, trim := newRect, bleed := newRect,
    base := lp.content, baseRegion := ⟨0, 0, lw, lh⟩, annots := lp.annots,
    overlayTarget := ⟨lw + gap, 0, 2 * lw + gap, lh⟩,
    overlayContent := rp.content }

/-- `merge_preserve_left_annotations(pdf_left, pdf_right, out_path, gap)`
(concatePDF.py lines 117-163): page-count precondition, whole-document
copy of the left (`out.insert_pdf(left_doc)`), then the per-page loop. -/
def merge_preserve_left_annotations (left : List (SrcPage α))
    (right : List (SrcPage β)) (gap : ℚ) :
    Except PyErr (List (MergedPage α β)) :=
  if left.length ≠ right.length then .error .pageCountMismatch
  else .ok (List.zipWith (mergePage gap) left right)

/-- `merge_pdfs_preserve_annotations(pdf_left, pdf_right, output_path,
gap)` (pdf_batch_translator.py lines 678-729): identical precondition
and loop, but line 703 then evaluates `overwrite_path` — a name bound
nowhere (the parameter is `output_path` and there is no module-level
`overwrite_path`) — so the call raises `NameError` before any save; the
atomic replace and the sidecar fallback (lines 720-725) are
unreachable. -/
def merge_pdfs_preserve_annotations (left : List (SrcPage α))
    (right : List (SrcPage β)) (gap : ℚ) :
    Except PyErr (List (MergedPage α β)) :=
  if left.length ≠ right.length then .error .pageCountMismatch
  else
    let _out := List.zipWith (mergePage gap) left right
    .error .nameErrorOverwritePath

/-- The per-page body of `extract_left_half_from_merged_pdf`
(pdf_splitter.py lines 131-141): read `current_rect = page.rect` (the
boxes all agree, so this is the crop box), halve the width, and set all
four boundary boxes to `(0, 0, width/2, height)`; nothing else on the
page is touched. -/
def splitPage (p : MergedPage α β) : MergedPage α β :=
  let w := p.crop.x1 - p.crop.x0
  let h := p.crop.y1 - p.crop.y0
  let newRect : Rect := ⟨0, 0, w / 2, h⟩
  { p with
    media := newRect
    crop := newRect
    trim := newRect
    bleed := newRect }

/-- The document-level loop of `extract_left_half_from_merged_pdf`. -/
def extract_left_half_core (doc : List (MergedPage α β)) :
    List (MergedPage α β) :=
  doc.map splitPage

/-- `extract_left_half_from_merged_pdf(merged_pdf, out_path)`
(pdf_splitter.py lines 117-158) as it stands: line 128 calls
`open_pdf(merged_pdf)`, but pdf_splitter.py defines only
`open_pdf_document` and imports no `open_pdf`, so every call raises
`NameError` before the document is opened; the loop above is
unreachable. -/
def extract_left_half_from_merged_pdf (_doc : List (MergedPage α β)) :
    Except PyErr (List (MergedPage α β)) :=
  .error .nameErrorOpenPdf

/-! ## Atomic replace with retry (pdf_batch_translator.py lines 650-661)

The `os.replace` interaction is an oracle `outcome : Nat → Bool`:
`outcome i = true` means the rename at attempt `i` succeeds,
`outcome i = false` means it raises the sharing-violation class error
`PermissionError`.  The result pairs the returned Boolean with the list
of back-off delays slept (`initial_delay * 2 ** attempt`). -/

def replaceAttempts (outcome : Nat → Bool) (initialDelay : ℚ) :
    Nat → Nat → Bool × List ℚ
  | _, 0 => (false, [])
  | attempt, remaining + 1 =>
    if outcome attempt then (true, [])
    else if remaining = 0 then (false, [])
    else
      let r := replaceAttempts outcome initialDelay (attempt + 1) remaining
      (r.1, initialDelay * 2 ^ attempt :: r.2)

/-- `_atomic_replace_with_retry(src, dst, max_retries=10,
initial_delay=0.1)`: up to `maxRetries` attempts, returning `True` at
the first success; a `PermissionError` on the last attempt returns
`False` without sleeping, otherwise the loop sleeps
`initial_delay * 2 ** attempt` and retries. -/
def _atomic_replace_with_retry (outcome : Nat → Bool) (maxRetries : Nat)
    (initialDelay : ℚ) : Bool × List ℚ :=
  replaceAttempts outcome initialDelay 0 maxRetries

/-- A ledger key (a `str(pdf_path)`) that survives the write/read round
trip: it contains no newline (which would break the line format) and
does not start with strippable whitespace (which `line.strip()` would
remove, changing the key). -/
def wfLedgerKey (k : Str) : Bool :=
  (match k with
   | [] => true
   | c :: _ => !pyIsSpace c) &&
  !k.any (fun c => c == '\n')

lemma boolTrueOfNeFalse {b : Bool} (h : ¬ b = false) : b = true := by
  cases b with
  | true => rfl
  | false => exact absurd rfl h

lemma boolFalseOfNeTrue {b : Bool} (h : ¬ b = true) : b = false := by
  cases b with
  | false => rfl
  | true => exact absurd rfl h

lemma joinWithChar_any_alpha (l : List Str) :
    (joinWithChar '-' l).any pyIsAlpha = l.any (fun p => p.any pyIsAlpha) := by
  match l with
  | [] => rfl
  | [x] => simp [joinWithChar]
  | x :: y :: t =>
    have ih := joinWithChar_any_alpha (y :: t)
    simp only [joinWithChar, List.any_append, List.any_cons] at *
    have hdash : pyIsAlpha '-' = false := by decide
    rw [hdash]
    simp [ih]

lemma splitOnChar_ne_nil (sep : Char) (s : Str) : splitOnChar sep s ≠ [] := by
  cases s with
  | nil => simp [splitOnChar]
  | cons c cs =>
    simp only [splitOnChar]
    split
    · simp
    · cases h : splitOnChar sep cs <;> simp

/-- C7: the name validator accepts a stem exactly under the spec's stated
conditions (no CJK, at least three dash parts, digit-free lettered author,
four-digit year in range, lettered title); the four example stems of the
spec behave as stated. -/
theorem name_validator_matches_claim (stem : Str) :
    (is_normalized_name stem = true ↔ nameClaimCondition stem) ∧
    is_normalized_name (strL "Smith-2023-A Study of X") = true ∧
    is_normalized_name (strL "史密斯-2023-标题") = false ∧
    is_normalized_name (strL "Smith-23-Title") = false ∧
    is_normalized_name (strL "Smith2023-Title") = false := by
  refine ⟨?_, by decide, by decide, by decide, by decide⟩
  unfold is_normalized_name nameClaimCondition
  constructor
  · intro h
    by_cases hcjk : contains_chinese_characters stem = true
    · rw [if_pos hcjk] at h; exact absurd h (by simp)
    · rw [if_neg hcjk] at h
      have hnc : ∀ c ∈ stem, isCJK c = false := by
        intro c hc
        by_contra hne
        exact hcjk (List.any_eq_true.2 ⟨c, hc, boolTrueOfNeFalse hne⟩)
      match hsplit : splitOnChar '-' stem with
      | [] => rw [hsplit] at h; exact absurd h (by simp)
      | [author] => rw [hsplit] at h; exact absurd h (by simp)
      | [author, year] => rw [hsplit] at h; simp at h
      | author :: year :: r0 :: rest =>
        rw [hsplit] at h
        simp only [List.isEmpty_cons, Bool.false_eq_true, if_false,
          Bool.and_eq_true, Bool.not_eq_true', decide_eq_true_eq,
          beq_iff_eq] at h
        obtain ⟨⟨⟨⟨⟨⟨hydigstr, hy1900⟩, hy2099⟩, hylen⟩, hanod⟩, haal⟩, htal⟩ := h
        rw [joinWithChar_any_alpha] at htal
        rw [pyIsDigitStr, Bool.and_eq_true] at hydigstr
        refine ⟨hnc, by simp, ?_, ?_, ?_⟩
        · intro q hq
          simp only [List.take_succ_cons, List.take_zero, List.mem_singleton] at hq
          rw [hq]
          refine ⟨?_, ?_⟩
          · intro c hc
            by_contra hne
            have ha : List.any author pyIsDigit = true :=
              List.any_eq_true.2 ⟨c, hc, boolTrueOfNeFalse hne⟩
            rw [ha] at hanod; exact absurd hanod (by simp)
          · exact List.any_eq_true.1 haal
        · intro p hp
          simp only [List.drop_succ_cons, List.drop_zero, List.take_succ_cons,
            List.take_zero, List.mem_singleton] at hp
          subst hp
          exact ⟨hylen, fun c hc => List.all_eq_true.1 hydigstr.2 c hc,
            hy1900, hy2099⟩
        · simp only [List.drop_succ_cons, List.drop_zero]
          obtain ⟨p, hp, hpa⟩ := List.any_eq_true.1 htal
          obtain ⟨c, hc, hca⟩ := List.any_eq_true.1 hpa
          exact ⟨p, hp, c, hc, hca⟩
  · rintro ⟨hnc, hlen, hauthor, hyear, htitle⟩
    have hcjk : contains_chinese_characters stem = false := by
      rw [contains_chinese_characters]
      by_contra hne
      have : stem.any isCJK = true := by revert hne; cases stem.any isCJK <;> simp
      obtain ⟨c, hc, hcc⟩ := List.any_eq_true.1 this
      rw [hnc c hc] at hcc; exact absurd hcc (by simp)
    rw [if_neg (by simp [hcjk])]
    match hsplit : splitOnChar '-' stem with
    | [] => rw [hsplit] at hlen; simp at hlen
    | [author] => rw [hsplit] at hlen; simp at hlen
    | [author, year] => rw [hsplit] at hlen; simp at hlen
    | author :: year :: r0 :: rest =>
      rw [hsplit] at hauthor hyear htitle
      simp only [List.take_succ_cons, List.take_zero, List.mem_singleton,
        List.drop_succ_cons, List.drop_zero, forall_eq] at hauthor hyear
      obtain ⟨hylen, hydig, hy1900, hy2099⟩ := hyear
      obtain ⟨hand, c, hc, hca⟩ := hauthor
      simp only [List.drop_succ_cons, List.drop_zero] at htitle
      obtain ⟨p, hp, d, hd, hda⟩ := htitle
      have hyie : year.isEmpty = false := by
        cases year with
        | nil => rw [List.length_nil] at hylen; exact absurd hylen (by simp)
        | cons a l => rfl
      simp only [List.isEmpty_cons, Bool.false_eq_true, if_false,
        Bool.and_eq_true, Bool.not_eq_true', decide_eq_true_eq, beq_iff_eq]
      refine ⟨⟨⟨⟨⟨⟨?_, hy1900⟩, hy2099⟩, hylen⟩, ?_⟩, ?_⟩, ?_⟩
      · rw [pyIsDigitStr, hyie, List.all_eq_true.2 fun e he => hydig e he]; rfl
      · by_contra hne
        have : author.any pyIsDigit = true := by
          revert hne; cases author.any pyIsDigit <;> simp
        obtain ⟨e, he, hed⟩ := List.any_eq_true.1 this
        rw [hand e he] at hed; exact absurd hed (by simp)
      · exact List.any_eq_true.2 ⟨c, hc, hca⟩
      · rw [joinWithChar_any_alpha]
        exact List.any_eq_true.2 ⟨p, hp, List.any_eq_true.2 ⟨d, hd, hda⟩⟩


/-! ## C1: the exclusion chain is the ordered first-match of the twelve rules -/

/-- C1: with every skip switch enabled, `should_exclude_from_processing`
returns the tag of the first rule (in the spec's fixed priority order)
whose predicate matches, and `none` (non-exclusion) when no rule
matches. -/
theorem exclusion_chain_first_match (env : ExclusionEnv) (p : PyPath)
    (keywords : List Str) (counts : CountDict)
    (hAll : env.allSkipsEnabled) :
    should_exclude_from_processing env p keywords counts =
      ruleOrder.find? (rulePred env p keywords counts) := by
  obtain ⟨h1, h2, h3, h4, h5, h6, h7⟩ := hAll
  unfold should_exclude_from_processing exclusionTail ruleOrder rulePred
  simp only [List.find?, h1, h2, h3, h4, h5, h6, h7, Bool.true_and]
  by_cases c1 : 3 ≤ (dictGet counts p.full).getD 0
  · rw [if_pos c1, decide_eq_true c1]
  · rw [if_neg c1, decide_eq_false c1]
    cases hb2 : List.isSuffixOf (strL "_original.pdf") (pyLower p.name) with
    | true => rfl
    | false =>
    cases hb3 : (List.isSuffixOf (strL ".mono.pdf") (pyLower p.name) ||
        List.isSuffixOf (strL ".dual.pdf") (pyLower p.name)) with
    | true => rfl
    | false =>
    cases hb4 : (check_translation_metadata_status env.metaOpen).1 with
    | true => rfl
    | false =>
    cases hb5 : contains_exclusion_keywords p.name keywords with
    | true => rfl
    | false =>
    cases hb6 : env.backupExists with
    | true => rfl
    | false =>
    cases hb7 : contains_chinese_characters p.name with
    | true => rfl
    | false =>
    cases hb8 : is_normalized_name p.stem with
    | false => rfl
    | true =>
    cases hpc : get_page_count env.fitzPageCount env.pypdfPageCount with
    | none => rfl
    | some pages =>
    by_cases c10 : env.maxPages < pages
    · simp [decide_eq_true c10]
    · by_cases c11 : env.maxSizeBytes ≤ env.statSize
      · simp [decide_eq_false c10, decide_eq_true c11]
      · cases hb12 : (detect_chinese_content_via_vlm env).1 with
        | true => simp [decide_eq_false c10, decide_eq_false c11, hb12]
        | false => simp [decide_eq_false c10, decide_eq_false c11, hb12]

/-- Witness for C1 at a concrete environment with all switches enabled. -/
theorem exclusion_chain_first_match_witness :
    should_exclude_from_processing
      ⟨true, true, true, true, true, true, true, 500, 104857600, 1000, false,
        .ok ⟨[]⟩, .ok 5, .ok 5, false, .ok (0, 0)⟩
      ⟨strL "C:/docs/", strL "Smith-2023-Title.pdf", strL "Smith-2023-Title"⟩
      [] [] =
      ruleOrder.find?
        (rulePred
          ⟨true, true, true, true, true, true, true, 500, 104857600, 1000, false,
            .ok ⟨[]⟩, .ok 5, .ok 5, false, .ok (0, 0)⟩
          ⟨strL "C:/docs/", strL "Smith-2023-Title.pdf", strL "Smith-2023-Title"⟩
          [] []) :=
  exclusion_chain_first_match _ _ _ _
    ⟨rfl, rfl, rfl, rfl, rfl, rfl, rfl⟩


/-! ## C4: idempotence of the metadata embed operation -/

/-- C4: `embed_metadata_attachment` is idempotent.  If the canonical
attachment already exists, the call reports `already_exists` and leaves
the document untouched; consequently, on any document carrying at most
one canonical attachment, embedding twice leaves exactly one canonical
attachment (never a second one), with the second call reporting
`already_exists` and mutating nothing. -/
theorem embed_metadata_idempotent (doc : EmbDoc) (payload payload2 : EmbPayload)
    (hOnce : doc.metaCount ≤ 1) :
    (metaName ∈ doc.names →
      embed_metadata_attachment doc payload = ((true, .alreadyExists), doc)) ∧
    ((embed_metadata_attachment
        (embed_metadata_attachment doc payload).2 payload2).2.metaCount = 1 ∧
      (embed_metadata_attachment
        (embed_metadata_attachment doc payload).2 payload2).1 =
        (true, .alreadyExists) ∧
      (embed_metadata_attachment
        (embed_metadata_attachment doc payload).2 payload2).2 =
        (embed_metadata_attachment doc payload).2) := by
  have hmemCount : metaName ∈ doc.names → 1 ≤ doc.metaCount := by
    intro hm
    obtain ⟨kv, hkv, hname⟩ := List.mem_map.1 hm
    have : kv ∈ doc.embfiles.filter (fun kv => kv.1 == metaName) :=
      List.mem_filter.2 ⟨hkv, by rw [hname]; exact beq_self_eq_true _⟩
    have := List.length_pos_of_mem this
    simpa [EmbDoc.metaCount] using this
  have hcountMem : ∀ d : EmbDoc, 0 < d.metaCount → metaName ∈ d.names := by
    intro d hd
    rw [EmbDoc.metaCount] at hd
    obtain ⟨kv, hkv⟩ := List.exists_mem_of_length_pos hd
    have := List.mem_filter.1 hkv
    exact List.mem_map.2 ⟨kv, this.1, by have := this.2; simpa using this⟩
  constructor
  · intro hmem
    rw [embed_metadata_attachment, if_pos hmem]
  · by_cases hmem : metaName ∈ doc.names
    · have h1 : embed_metadata_attachment doc payload = ((true, .alreadyExists), doc) := by
        rw [embed_metadata_attachment, if_pos hmem]
      rw [h1]
      have h2 : embed_metadata_attachment doc payload2 = ((true, .alreadyExists), doc) := by
        rw [embed_metadata_attachment, if_pos hmem]
      rw [h2]
      exact ⟨Nat.le_antisymm hOnce (hmemCount hmem), rfl, rfl⟩
    · have h1 : embed_metadata_attachment doc payload =
          ((true, .success), ⟨doc.embfiles ++ [(metaName, payload)]⟩) := by
        rw [embed_metadata_attachment, if_neg hmem]
      rw [h1]
      have hzero : doc.metaCount = 0 := by
        by_contra hne
        exact hmem (hcountMem doc (Nat.pos_of_ne_zero fun h => hne h))
      have hcount : (EmbDoc.mk (doc.embfiles ++ [(metaName, payload)])).metaCount = 1 := by
        rw [EmbDoc.metaCount] at hzero ⊢
        rw [List.filter_append, List.length_append, hzero]
        simp
      have hmem2 : metaName ∈ (EmbDoc.mk (doc.embfiles ++ [(metaName, payload)])).names := by
        apply hcountMem
        rw [hcount]
        exact Nat.one_pos
      have h2 : embed_metadata_attachment
          (EmbDoc.mk (doc.embfiles ++ [(metaName, payload)])) payload2 =
          ((true, .alreadyExists), EmbDoc.mk (doc.embfiles ++ [(metaName, payload)])) := by
        rw [embed_metadata_attachment, if_pos hmem2]
      rw [h2]
      exact ⟨hcount, rfl, rfl⟩

/-- Witness for C4 on a concrete document with no attachments. -/
theorem embed_metadata_idempotent_witness :
    EmbDoc.metaCount ⟨[]⟩ ≤ 1 ∧
    (embed_metadata_attachment
        (embed_metadata_attachment ⟨[]⟩ (.json (.obj []))).2 (.json (.obj []))).2.metaCount = 1 :=
  ⟨by decide,
    (embed_metadata_idempotent ⟨[]⟩ (.json (.obj [])) (.json (.obj [])) (by decide)).2.1⟩
/-! ## C6: metadata written as translated, read back, and the exclusion rule

`create_translation_metadata` (the batch translator's own writer) uses the
flat key `"pdf2zh.status"`, which `check_translation_metadata_status` reads
back.  The pair-manager writer `build_translated_meta` (and the orphan
manager's `create_metadata`) nest the status under a top-level `"pdf2zh"`
object, which the same reader does not recognize. -/

/-- C6 counterexample: a document whose canonical attachment was written by
`build_translated_meta` with status `translated` is NOT reported as
translated by `check_translation_metadata_status` (it reads the flat key
`"pdf2zh.status"`, finds nothing, and reports `unknown_status`), and the
exclusion evaluator passes the document through instead of excluding it. -/
theorem nested_translated_meta_not_recognized :
    check_translation_metadata_status
      (.ok ⟨[(metaName, .json (build_translated_meta
        [⟨612, 792⟩] [⟨1224, 792⟩] (strL "Qwen/Qwen2.5-7B-Instruct") 0
        (strL "2025-01-01T00:00:00Z")))]⟩) =
      (false, .unknownStatus) ∧
    should_exclude_from_processing
      ⟨true, true, true, true, true, true, false, 500, 104857600, 1000, false,
        .ok ⟨[(metaName, .json (build_translated_meta
          [⟨612, 792⟩] [⟨1224, 792⟩] (strL "Qwen/Qwen2.5-7B-Instruct") 0
          (strL "2025-01-01T00:00:00Z")))]⟩,
        .ok 5, .ok 5, false, .ok (0, 0)⟩
      ⟨strL "C:/docs/", strL "Qian-2025-A guidance.pdf",
        strL "Qian-2025-A guidance"⟩
      [] [] = none := by
  constructor
  · rfl
  · rfl

/-- C6 amended: the round trip does hold for the batch translator's own
writer.  A document stamped by `create_translation_metadata` with status
`translated` is read back as translated, and the exclusion evaluator
(metadata rule enabled, earlier rules not matching) excludes it with
reason `already_translated_by_metadata`. -/
theorem flat_translated_meta_roundtrip (env : ExclusionEnv) (p : PyPath)
    (keywords : List Str) (counts : CountDict)
    (service model runTime : Str) (src res : List Size) (gap : ℚ)
    (hcnt : ¬ 3 ≤ (dictGet counts p.full).getD 0)
    (hb : List.isSuffixOf (strL "_original.pdf") (pyLower p.name) = false)
    (hm : List.isSuffixOf (strL ".mono.pdf") (pyLower p.name) = false)
    (hd : List.isSuffixOf (strL ".dual.pdf") (pyLower p.name) = false)
    (hflag : env.skipTranslatedByMetadata = true)
    (hmeta : env.metaOpen = .ok ⟨[(metaName, .json (create_translation_metadata
      service model (strL "translated") src res gap runTime))]⟩) :
    check_translation_metadata_status env.metaOpen = (true, .alreadyTranslated) ∧
    should_exclude_from_processing env p keywords counts =
      some .alreadyTranslatedByMetadata := by
  have hread : check_translation_metadata_status
      (Except.ok ⟨[(metaName, .json (create_translation_metadata
        service model (strL "translated") src res gap runTime))]⟩) =
      (true, .alreadyTranslated) := rfl
  refine ⟨by rw [hmeta]; exact hread, ?_⟩
  unfold should_exclude_from_processing
  rw [if_neg hcnt, hb, hm, hd, hflag, hmeta, hread]
  simp

/-- Witness for C6's amended theorem at a concrete document. -/
theorem flat_translated_meta_roundtrip_witness :
    check_translation_metadata_status
      (ExclusionEnv.metaOpen
        ⟨true, true, true, true, true, true, false, 500, 104857600, 1000, false,
          .ok ⟨[(metaName, .json (create_translation_metadata
            (strL "siliconflow_free") (strL "m") (strL "translated")
            [⟨612, 792⟩] [⟨1224, 792⟩] 0 (strL "2025-01-01T00:00:00Z")))]⟩,
          .ok 5, .ok 5, false, .ok (0, 0)⟩) =
      (true, .alreadyTranslated) ∧
    should_exclude_from_processing
      ⟨true, true, true, true, true, true, false, 500, 104857600, 1000, false,
        .ok ⟨[(metaName, .json (create_translation_metadata
          (strL "siliconflow_free") (strL "m") (strL "translated")
          [⟨612, 792⟩] [⟨1224, 792⟩] 0 (strL "2025-01-01T00:00:00Z")))]⟩,
        .ok 5, .ok 5, false, .ok (0, 0)⟩
      ⟨strL "C:/docs/", strL "Qian-2025-A guidance.pdf",
        strL "Qian-2025-A guidance"⟩
      [] [] = some .alreadyTranslatedByMetadata :=
  flat_translated_meta_roundtrip _ _ [] []
    (strL "siliconflow_free") (strL "m") (strL "2025-01-01T00:00:00Z")
    [⟨612, 792⟩] [⟨1224, 792⟩] 0
    (by decide) (by decide) (by decide) (by decide) rfl rfl

/-! ## C9: failure policy of the checks inside the exclusion chain -/

/-- The chain can only report the metadata rule when that rule's guarded
condition holds, and only report the labeling rule when that rule's
guarded condition holds (inversion on the if-chain). -/
lemma chain_tag_inversion (env : ExclusionEnv) (p : PyPath)
    (keywords : List Str) (counts : CountDict) :
    (should_exclude_from_processing env p keywords counts =
        some .alreadyTranslatedByMetadata →
      (env.skipTranslatedByMetadata &&
        (check_translation_metadata_status env.metaOpen).1) = true) ∧
    (should_exclude_from_processing env p keywords counts =
        some .chinesePdfVlm →
      (env.skipChinesePdfVlm && (detect_chinese_content_via_vlm env).1) = true) := by
  unfold should_exclude_from_processing
  by_cases c1 : 3 ≤ (dictGet counts p.full).getD 0
  · rw [if_pos c1]; exact ⟨nofun, nofun⟩
  · rw [if_neg c1]
    cases hb2 : List.isSuffixOf (strL "_original.pdf") (pyLower p.name) with
    | true => exact ⟨nofun, nofun⟩
    | false =>
    cases hb3 : (List.isSuffixOf (strL ".mono.pdf") (pyLower p.name) ||
        List.isSuffixOf (strL ".dual.pdf") (pyLower p.name)) with
    | true => exact ⟨nofun, nofun⟩
    | false =>
    cases hb4 : (env.skipTranslatedByMetadata &&
        (check_translation_metadata_status env.metaOpen).1) with
    | true => exact ⟨fun _ => rfl, nofun⟩
    | false =>
    cases hb5 : (env.skipContainsSkipKeywords &&
        contains_exclusion_keywords p.name keywords) with
    | true => exact ⟨nofun, nofun⟩
    | false =>
    cases hb6 : env.backupExists with
    | true => exact ⟨nofun, nofun⟩
    | false =>
    cases hb7 : (env.skipFilenameContainsChinese &&
        contains_chinese_characters p.name) with
    | true => exact ⟨nofun, nofun⟩
    | false =>
    cases hb8 : (env.skipFilenameFormatCheck && !is_normalized_name p.stem) with
    | true => exact ⟨nofun, nofun⟩
    | false =>
    cases hpc : get_page_count env.fitzPageCount env.pypdfPageCount with
    | none => exact ⟨nofun, nofun⟩
    | some pages =>
    show (exclusionTail env pages = some .alreadyTranslatedByMetadata →
        false = true) ∧
      (exclusionTail env pages = some .chinesePdfVlm →
        (env.skipChinesePdfVlm && (detect_chinese_content_via_vlm env).1) = true)
    unfold exclusionTail
    cases hb10 : (env.skipMaxPages && decide (env.maxPages < pages)) with
    | true => exact ⟨nofun, nofun⟩
    | false =>
    cases hb11 : (env.skipMaxFileSize && decide (env.maxSizeBytes ≤ env.statSize)) with
    | true => exact ⟨nofun, nofun⟩
    | false =>
    cases hb12 : (env.skipChinesePdfVlm && (detect_chinese_content_via_vlm env).1) with
    | true => exact ⟨nofun, fun _ => rfl⟩
    | false => exact ⟨nofun, nofun⟩

/-- C9 counterexample: when both page-count backends raise, the document
IS excluded with reason `page_count_failed` — an exception inside the
page-count check is not treated as pass-through, contradicting the claim.
(The environment below has no metadata, a well-formed name, and no other
matching rule.) -/
theorem page_count_exception_excludes :
    should_exclude_from_processing
      ⟨true, true, true, true, true, true, false, 500, 104857600, 1000, false,
        .ok ⟨[]⟩, .error (), .error (), false, .ok (0, 0)⟩
      ⟨strL "C:/docs/", strL "Qian-2025-A guidance.pdf",
        strL "Qian-2025-A guidance"⟩
      [] [] = some .pageCountFailed := by
  rfl

/-- C9 amended: an exception inside the metadata-status check (rule 4) is
treated as non-exclusion (the chain can never exclude for
`already_translated_by_metadata`), an exception inside the
language-labeling check (rule 12) is treated as non-exclusion, but an
exception inside the page-count check first falls back to the second
reader and, when both raise, excludes the document with reason
`page_count_failed`. -/
theorem check_failure_policy (env : ExclusionEnv) (p : PyPath)
    (keywords : List Str) (counts : CountDict) :
    (env.metaOpen = .error () →
      check_translation_metadata_status env.metaOpen = (false, .checkFailed) ∧
      should_exclude_from_processing env p keywords counts ≠
        some .alreadyTranslatedByMetadata) ∧
    (env.vlmCounts = .error () →
      should_exclude_from_processing env p keywords counts ≠
        some .chinesePdfVlm) ∧
    (env.fitzPageCount = .error () → env.pypdfPageCount = .error () →
      ¬ 3 ≤ (dictGet counts p.full).getD 0 →
      List.isSuffixOf (strL "_original.pdf") (pyLower p.name) = false →
      List.isSuffixOf (strL ".mono.pdf") (pyLower p.name) = false →
      List.isSuffixOf (strL ".dual.pdf") (pyLower p.name) = false →
      (env.skipTranslatedByMetadata &&
        (check_translation_metadata_status env.metaOpen).1) = false →
      (env.skipContainsSkipKeywords &&
        contains_exclusion_keywords p.name keywords) = false →
      env.backupExists = false →
      (env.skipFilenameContainsChinese &&
        contains_chinese_characters p.name) = false →
      (env.skipFilenameFormatCheck && !is_normalized_name p.stem) = false →
      should_exclude_from_processing env p keywords counts =
        some .pageCountFailed) := by
  refine ⟨?_, ?_, ?_⟩
  · intro hmeta
    have hread : check_translation_metadata_status (Except.error ()) =
        (false, .checkFailed) := rfl
    refine ⟨by rw [hmeta]; exact hread, ?_⟩
    intro hcon
    have hinv := (chain_tag_inversion env p keywords counts).1 hcon
    rw [hmeta, hread] at hinv
    simp at hinv
  · intro hvlm
    have hdet : (detect_chinese_content_via_vlm env).1 = false := by
      unfold detect_chinese_content_via_vlm
      rw [hvlm]
      split_ifs <;> rfl
    intro hcon
    have hinv := (chain_tag_inversion env p keywords counts).2 hcon
    rw [hdet] at hinv
    simp at hinv
  · intro hfz hpp hc1 h2 h3a h3b h4 h5 h6 h7 h8
    unfold should_exclude_from_processing
    rw [if_neg hc1, h2, h3a, h3b, h4, h5, h6, h7, h8, hfz, hpp]
    rfl

/-- Witness for C9's amended theorem at a concrete environment in which
the metadata check, the labeling check, and both page-count readers all
raise. -/
theorem check_failure_policy_witness :
    should_exclude_from_processing
      ⟨true, true, true, true, true, true, true, 500, 104857600, 1000, false,
        .error (), .error (), .error (), true, .error ()⟩
      ⟨strL "C:/docs/", strL "Qian-2025-A guidance.pdf",
        strL "Qian-2025-A guidance"⟩
      [] [] ≠ some .alreadyTranslatedByMetadata ∧
    should_exclude_from_processing
      ⟨true, true, true, true, true, true, true, 500, 104857600, 1000, false,
        .error (), .error (), .error (), true, .error ()⟩
      ⟨strL "C:/docs/", strL "Qian-2025-A guidance.pdf",
        strL "Qian-2025-A guidance"⟩
      [] [] = some .pageCountFailed :=
  ⟨((check_failure_policy _ _ [] []).1 rfl).2,
    (check_failure_policy _ _ [] []).2.2 rfl rfl (by decide) (by decide)
      (by decide) (by decide) (by decide) (by decide) rfl (by decide) (by decide)⟩

/-! ## C8: gap inference -/

lemma inferGaps_eq_filterMap (src res : List Size) :
    inferGaps src res = (src.zip res).filterMap amendedCand := by
  induction src generalizing res with
  | nil => rfl
  | cons s ss ih =>
    cases res with
    | nil => rfl
    | cons r rs =>
      simp only [inferGaps, List.zip_cons_cons, List.filterMap_cons, amendedCand]
      have h2 : s.w + s.w = 2 * s.w := (two_mul s.w).symm
      rw [h2]
      by_cases hc : round2 (r.w - 2 * s.w) < -(1 / 2)
      · rw [if_neg (not_le.2 hc), if_pos hc, ih]
        simp
      · rw [if_pos (not_lt.1 hc), if_neg hc, ih]
        simp

/-- C8 counterexample: on source widths `[100, 100, 100]` and result
widths `[50, 210, 212]` the code returns `11` (the first page's
candidate `-150` is dropped, leaving median of `[10, 12]`), while the
claim's formula (candidate `max(0, rw - 2*lw)` on EVERY page, median of
all three) returns `10`. -/
theorem infer_gap_differs_from_claim :
    infer_gap_pt [⟨100, 792⟩, ⟨100, 792⟩, ⟨100, 792⟩]
        [⟨50, 792⟩, ⟨210, 792⟩, ⟨212, 792⟩] = 11 ∧
    inferGapClaimC8 [⟨100, 792⟩, ⟨100, 792⟩, ⟨100, 792⟩]
        [⟨50, 792⟩, ⟨210, 792⟩, ⟨212, 792⟩] = 10 := by
  constructor
  · norm_num [infer_gap_pt, inferGaps, round2, roundHalfEven, pyMedian,
      List.insertionSort, List.orderedInsert]
  · norm_num [inferGapClaimC8, pyMedian, List.insertionSort, List.orderedInsert]

/-- C8 amended: `infer_gap_pt` equals the amended formula on every
input — pages whose rounded residual is below `-0.5` are dropped (not
zeroed), residuals in `[-0.5, 0)` count as zero, and the result is the
rounded median of the kept candidates (`0.0` when none survive) — and
the spec's example `[100, 100, 100]` / `[210, 210, 210]` yields
`10.0`. -/
theorem infer_gap_amended (src res : List Size) :
    infer_gap_pt src res = inferGapAmended src res ∧
    infer_gap_pt [⟨100, 792⟩, ⟨100, 792⟩, ⟨100, 792⟩]
        [⟨210, 792⟩, ⟨210, 792⟩, ⟨210, 792⟩] = 10 := by
  constructor
  · unfold infer_gap_pt inferGapAmended
    rw [inferGaps_eq_filterMap]
  · norm_num [infer_gap_pt, inferGaps, round2, roundHalfEven, pyMedian,
      List.insertionSort, List.orderedInsert]

/-! ## C2 and C3: merge geometry and the merge/split round trip -/

lemma zipWith_eq_map_left {A' B' C' : Type _} (f : A' → B' → C') (g : A' → C')
    (hfg : ∀ a b, f a b = g a) :
    ∀ (l : List A') (r : List B'), l.length = r.length →
      List.zipWith f l r = l.map g := by
  intro l
  induction l with
  | nil => intro r _; rfl
  | cons a t ih =>
    intro r hr
    cases r with
    | nil => simp at hr
    | cons b rt =>
      simp only [List.zipWith_cons_cons, List.map_cons, hfg]
      rw [ih rt (by simpa using hr)]

/-- C2: `merge_preserve_left_annotations` fails with the page-count
mismatch error when the page counts differ; otherwise it produces a
document with one output page per input page whose four boundary boxes
all equal `(0,0)-(2*lw+gap, lh)`, whose overlay renders the right page
into `(lw+gap, 0)-(2*lw+gap, lh)`, and whose left content and
annotations are carried over unchanged in the region `(0,0)-(lw,lh)`. -/
theorem merge_geometry {α β : Type} (left : List (SrcPage α))
    (right : List (SrcPage β)) (gap : ℚ) :
    (left.length ≠ right.length →
      merge_preserve_left_annotations left right gap =
        .error .pageCountMismatch) ∧
    (left.length = right.length →
      ∃ out, merge_preserve_left_annotations left right gap = .ok out ∧
        out.length = left.length ∧
        ∀ (i : Nat) (hl : i < left.length) (hr : i < right.length)
          (ho : i < out.length),
          (out.get ⟨i, ho⟩).media =
            ⟨0, 0, 2 * (left.get ⟨i, hl⟩).width + gap,
              (left.get ⟨i, hl⟩).height⟩ ∧
          (out.get ⟨i, ho⟩).crop = (out.get ⟨i, ho⟩).media ∧
          (out.get ⟨i, ho⟩).trim = (out.get ⟨i, ho⟩).media ∧
          (out.get ⟨i, ho⟩).bleed = (out.get ⟨i, ho⟩).media ∧
          (out.get ⟨i, ho⟩).overlayTarget =
            ⟨(left.get ⟨i, hl⟩).width + gap, 0,
              2 * (left.get ⟨i, hl⟩).width + gap,
              (left.get ⟨i, hl⟩).height⟩ ∧
          (out.get ⟨i, ho⟩).overlayContent = (right.get ⟨i, hr⟩).content ∧
          (out.get ⟨i, ho⟩).base = (left.get ⟨i, hl⟩).content ∧
          (out.get ⟨i, ho⟩).baseRegion =
            ⟨0, 0, (left.get ⟨i, hl⟩).width, (left.get ⟨i, hl⟩).height⟩ ∧
          (out.get ⟨i, ho⟩).annots = (left.get ⟨i, hl⟩).annots) := by
  constructor
  · intro h
    unfold merge_preserve_left_annotations
    rw [if_pos h]
  · intro h
    refine ⟨List.zipWith (mergePage gap) left right, ?_, ?_, ?_⟩
    · unfold merge_preserve_left_annotations
      rw [if_neg (fun hne => hne h)]
    · rw [List.length_zipWith, h, Nat.min_self]
    · intro i hl hr ho
      have hz : (List.zipWith (mergePage gap) left right).get ⟨i, ho⟩ =
          mergePage gap (left.get ⟨i, hl⟩) (right.get ⟨i, hr⟩) := by
        simp [List.get_eq_getElem, List.getElem_zipWith]
      rw [hz]
      exact ⟨rfl, rfl, rfl, rfl, rfl, rfl, rfl, rfl, rfl⟩

/-- Witness for C2: a one-page pair with gap 5, and a mismatched pair. -/
theorem merge_geometry_witness :
    merge_preserve_left_annotations
      [({ width := 612, height := 792, content := 0,
          annots := [⟨1, 2, 3, 4⟩] } : SrcPage Nat)]
      ([] : List (SrcPage Nat)) 5 = .error .pageCountMismatch ∧
    (∃ out, merge_preserve_left_annotations
        [({ width := 612, height := 792, content := 0,
            annots := [⟨1, 2, 3, 4⟩] } : SrcPage Nat)]
        [({ width := 612, height := 792, content := 7,
            annots := [] } : SrcPage Nat)] 5 = .ok out ∧
      out.length = 1 ∧ True) := by
  constructor
  · exact (merge_geometry _ _ 5).1 (by decide)
  · obtain ⟨out, h1, h2, _⟩ := (merge_geometry
      [({ width := 612, height := 792, content := 0,
          annots := [⟨1, 2, 3, 4⟩] } : SrcPage Nat)]
      [({ width := 612, height := 792, content := 7,
          annots := [] } : SrcPage Nat)] 5).2 rfl
    exact ⟨out, h1, h2, trivial⟩

lemma map_split_merge_zip {α β : Type} {C' : Type _}
    (A : List (SrcPage α)) (B : List (SrcPage β))
    (f : MergedPage α β → C') (g : SrcPage α → C')
    (hfg : ∀ a b, f (splitPage (mergePage 0 a b)) = g a)
    (hAB : A.length = B.length) :
    (extract_left_half_core (List.zipWith (mergePage 0) A B)).map f =
      A.map g := by
  unfold extract_left_half_core
  rw [List.map_map, List.map_zipWith]
  exact zipWith_eq_map_left _ _ (fun a b => hfg a b) A B hAB

/-- C3: on any successful zero-gap merge, the split loop restores every
page's four boundary boxes to the left document's original
`(0,0)-(width, height)` and leaves the annotations (count and
coordinates) and the copied left content untouched; the split sets every
boundary box to `(0,0)-(width/2, height)`; but the shipped
`extract_left_half_from_merged_pdf` raises `NameError` on every input
(it calls `open_pdf`, which pdf_splitter.py does not define), so the
claimed round trip never executes. -/
theorem merge_split_roundtrip {α β : Type} (A : List (SrcPage α))
    (B : List (SrcPage β)) (out : List (MergedPage α β))
    (h : merge_preserve_left_annotations A B 0 = .ok out) :
    ((extract_left_half_core out).map (fun p => p.media) =
        A.map (fun a => (⟨0, 0, a.width, a.height⟩ : Rect)) ∧
      (extract_left_half_core out).map (fun p => p.crop) =
        A.map (fun a => (⟨0, 0, a.width, a.height⟩ : Rect)) ∧
      (extract_left_half_core out).map (fun p => p.trim) =
        A.map (fun a => (⟨0, 0, a.width, a.height⟩ : Rect)) ∧
      (extract_left_half_core out).map (fun p => p.bleed) =
        A.map (fun a => (⟨0, 0, a.width, a.height⟩ : Rect)) ∧
      (extract_left_half_core out).map (fun p => p.annots) =
        A.map (fun a => a.annots) ∧
      (extract_left_half_core out).map (fun p => p.base) =
        A.map (fun a => a.content)) ∧
    (∀ q : MergedPage α β, (splitPage q).media =
        ⟨0, 0, (q.crop.x1 - q.crop.x0) / 2, q.crop.y1 - q.crop.y0⟩ ∧
      (splitPage q).crop = (splitPage q).media ∧
      (splitPage q).trim = (splitPage q).media ∧
      (splitPage q).bleed = (splitPage q).media) ∧
    (∀ d : List (MergedPage α β),
      extract_left_half_from_merged_pdf d = .error .nameErrorOpenPdf) := by
  unfold merge_preserve_left_annotations at h
  by_cases hlen : A.length ≠ B.length
  · rw [if_pos hlen] at h
    exact Except.noConfusion h
  · rw [if_neg hlen] at h
    have hout : out = List.zipWith (mergePage 0) A B := (Except.ok.inj h).symm
    subst hout
    have hAB : A.length = B.length := not_ne_iff.1 hlen
    refine ⟨⟨?_, ?_, ?_, ?_, ?_, ?_⟩, ?_, fun d => rfl⟩
    · refine map_split_merge_zip A B _ _ (fun a b => ?_) hAB
      simp only [splitPage, mergePage, Rect.mk.injEq]
      exact ⟨trivial, trivial, by ring, by ring⟩
    · refine map_split_merge_zip A B _ _ (fun a b => ?_) hAB
      simp only [splitPage, mergePage, Rect.mk.injEq]
      exact ⟨trivial, trivial, by ring, by ring⟩
    · refine map_split_merge_zip A B _ _ (fun a b => ?_) hAB
      simp only [splitPage, mergePage, Rect.mk.injEq]
      exact ⟨trivial, trivial, by ring, by ring⟩
    · refine map_split_merge_zip A B _ _ (fun a b => ?_) hAB
      simp only [splitPage, mergePage, Rect.mk.injEq]
      exact ⟨trivial, trivial, by ring, by ring⟩
    · exact map_split_merge_zip A B _ _ (fun a b => rfl) hAB
    · exact map_split_merge_zip A B _ _ (fun a b => rfl) hAB
    · intro q
      exact ⟨rfl, rfl, rfl, rfl⟩

/-- Witness for C3 on a concrete one-page zero-gap merge. -/
theorem merge_split_roundtrip_witness :
    ((extract_left_half_core
        [mergePage 0
          ({ width := 612, height := 792, content := 0,
             annots := [⟨1, 2, 3, 4⟩] } : SrcPage Nat)
          ({ width := 612, height := 792, content := 7,
             annots := [] } : SrcPage Nat)]).map (fun p => p.media) =
      [({ width := 612, height := 792, content := 0,
          annots := [⟨1, 2, 3, 4⟩] } : SrcPage Nat)].map
        (fun a => (⟨0, 0, a.width, a.height⟩ : Rect)) ∧
     (extract_left_half_core
        [mergePage 0
          ({ width := 612, height := 792, content := 0,
             annots := [⟨1, 2, 3, 4⟩] } : SrcPage Nat)
          ({ width := 612, height := 792, content := 7,
             annots := [] } : SrcPage Nat)]).map (fun p => p.crop) =
      [({ width := 612, height := 792, content := 0,
          annots := [⟨1, 2, 3, 4⟩] } : SrcPage Nat)].map
        (fun a => (⟨0, 0, a.width, a.height⟩ : Rect)) ∧
     (extract_left_half_core
        [mergePage 0
          ({ width := 612, height := 792, content := 0,
             annots := [⟨1, 2, 3, 4⟩] } : SrcPage Nat)
          ({ width := 612, height := 792, content := 7,
             annots := [] } : SrcPage Nat)]).map (fun p => p.trim) =
      [({ width := 612, height := 792, content := 0,
          annots := [⟨1, 2, 3, 4⟩] } : SrcPage Nat)].map
        (fun a => (⟨0, 0, a.width, a.height⟩ : Rect)) ∧
     (extract_left_half_core
        [mergePage 0
          ({ width := 612, height := 792, content := 0,
             annots := [⟨1, 2, 3, 4⟩] } : SrcPage Nat)
          ({ width := 612, height := 792, content := 7,
             annots := [] } : SrcPage Nat)]).map (fun p => p.bleed) =
      [({ width := 612, height := 792, content := 0,
          annots := [⟨1, 2, 3, 4⟩] } : SrcPage Nat)].map
        (fun a => (⟨0, 0, a.width, a.height⟩ : Rect)) ∧
     (extract_left_half_core
        [mergePage 0
          ({ width := 612, height := 792, content := 0,
             annots := [⟨1, 2, 3, 4⟩] } : SrcPage Nat)
          ({ width := 612, height := 792, content := 7,
             annots := [] } : SrcPage Nat)]).map (fun p => p.annots) =
      [({ width := 612, height := 792, content := 0,
          annots := [⟨1, 2, 3, 4⟩] } : SrcPage Nat)].map
        (fun a => a.annots) ∧
     (extract_left_half_core
        [mergePage 0
          ({ width := 612, height := 792, content := 0,
             annots := [⟨1, 2, 3, 4⟩] } : SrcPage Nat)
          ({ width := 612, height := 792, content := 7,
             annots := [] } : SrcPage Nat)]).map (fun p => p.base) =
      [({ width := 612, height := 792, content := 0,
          annots := [⟨1, 2, 3, 4⟩] } : SrcPage Nat)].map
        (fun a => a.content)) ∧
    (∀ q : MergedPage Nat Nat, (splitPage q).media =
        ⟨0, 0, (q.crop.x1 - q.crop.x0) / 2, q.crop.y1 - q.crop.y0⟩ ∧
      (splitPage q).crop = (splitPage q).media ∧
      (splitPage q).trim = (splitPage q).media ∧
      (splitPage q).bleed = (splitPage q).media) ∧
    (∀ d : List (MergedPage Nat Nat),
      extract_left_half_from_merged_pdf d = .error .nameErrorOpenPdf) :=
  merge_split_roundtrip
    [({ width := 612, height := 792, content := 0,
        annots := [⟨1, 2, 3, 4⟩] } : SrcPage Nat)]
    [({ width := 612, height := 792, content := 7,
        annots := [] } : SrcPage Nat)]
    [mergePage 0
      ({ width := 612, height := 792, content := 0,
         annots := [⟨1, 2, 3, 4⟩] } : SrcPage Nat)
      ({ width := 612, height := 792, content := 7,
         annots := [] } : SrcPage Nat)]
    rfl

/-! ## C10: atomic replace with retry, and its merge caller -/

lemma range_pow_shift (d : ℚ) (a k : Nat) :
    d * 2 ^ a :: (List.range k).map (fun j => d * 2 ^ (a + 1 + j)) =
      (List.range (k + 1)).map (fun j => d * 2 ^ (a + j)) := by
  rw [List.range_succ_eq_map, List.map_cons, List.map_map, Nat.add_zero]
  congr 1
  apply List.map_congr_left
  intro j _
  simp only [Function.comp_apply]
  have h1 : a + 1 + j = a + (j + 1) := by omega
  rw [h1]

lemma replaceAttempts_all_fail (outcome : Nat → Bool) (d : ℚ) :
    ∀ (r a : Nat), (∀ j, j < r → outcome (a + j) = false) →
      replaceAttempts outcome d a r =
        (false, (List.range (r - 1)).map (fun j => d * 2 ^ (a + j))) := by
  intro r
  induction r with
  | zero => intro a _; rfl
  | succ r ih =>
    intro a hfail
    have h0 : outcome a = false := by simpa using hfail 0 (Nat.succ_pos r)
    unfold replaceAttempts
    rw [h0]
    simp only [Bool.false_eq_true, if_false]
    cases r with
    | zero => rfl
    | succ r' =>
      rw [if_neg (Nat.succ_ne_zero r')]
      have ihs := ih (a + 1) (fun j hj => by
        have := hfail (j + 1) (by omega)
        simpa [Nat.add_assoc, Nat.add_comm 1 j] using this)
      rw [ihs]
      simp only [Nat.succ_sub_one]
      exact congrArg (Prod.mk false) (range_pow_shift d a r')

lemma replaceAttempts_first_success (outcome : Nat → Bool) (d : ℚ) :
    ∀ (i r a : Nat), i < r → outcome (a + i) = true →
      (∀ j, j < i → outcome (a + j) = false) →
      replaceAttempts outcome d a r =
        (true, (List.range i).map (fun j => d * 2 ^ (a + j))) := by
  intro i
  induction i with
  | zero =>
    intro r a hir hsucc _
    cases r with
    | zero => omega
    | succ r' =>
      unfold replaceAttempts
      rw [show a + 0 = a from rfl] at hsucc
      rw [hsucc]
      rfl
  | succ i ih =>
    intro r a hir hsucc hfail
    have h0 : outcome a = false := by simpa using hfail 0 (Nat.succ_pos i)
    cases r with
    | zero => omega
    | succ r' =>
      unfold replaceAttempts
      rw [h0]
      simp only [Bool.false_eq_true, if_false]
      have hr' : r' ≠ 0 := by omega
      rw [if_neg hr']
      have ihs := ih r' (a + 1) (by omega)
        (by have := hsucc; rw [show a + (i + 1) = a + 1 + i from by omega] at this; exact this)
        (fun j hj => by
          have := hfail (j + 1) (by omega)
          rw [show a + (j + 1) = a + 1 + j from by omega] at this
          exact this)
      rw [ihs]
      exact congrArg (Prod.mk true) (range_pow_shift d a i)

/-- C10: `_atomic_replace_with_retry` returns success at the first
attempt that succeeds, having slept the exponentially growing delays of
the failed attempts before it; when every attempt fails with the
sharing-violation error it returns failure (it never raises, being a
total function into `Bool`), after sleeping
`initial_delay * 2 ** attempt` between consecutive attempts; but its
merge caller `merge_pdfs_preserve_annotations` raises `NameError` on
undefined `overwrite_path` before any replace is attempted, so the
claimed sidecar fallback (lines 721-725) is unreachable on every
equal-page-count input. -/
theorem atomic_replace_retry_spec {α β : Type} (outcome : Nat → Bool)
    (n : Nat) (d : ℚ) (i : Nat) :
    (i < n → outcome i = true → (∀ j, j < i → outcome j = false) →
      _atomic_replace_with_retry outcome n d =
        (true, (List.range i).map (fun j => d * 2 ^ j))) ∧
    ((∀ j, j < n → outcome j = false) →
      _atomic_replace_with_retry outcome n d =
        (false, (List.range (n - 1)).map (fun j => d * 2 ^ j))) ∧
    (∀ (left : List (SrcPage α)) (right : List (SrcPage β)) (gap : ℚ),
      left.length = right.length →
      merge_pdfs_preserve_annotations left right gap =
        .error .nameErrorOverwritePath) := by
  refine ⟨?_, ?_, ?_⟩
  · intro hin hsucc hfail
    unfold _atomic_replace_with_retry
    rw [replaceAttempts_first_success outcome d i n 0 hin
      (by simpa using hsucc) (fun j hj => by simpa using hfail j hj)]
    simp
  · intro hfail
    unfold _atomic_replace_with_retry
    rw [replaceAttempts_all_fail outcome d n 0
      (fun j hj => by simpa using hfail j hj)]
    simp
  · intro left right gap hlen
    unfold merge_pdfs_preserve_annotations
    rw [if_neg (fun hne => hne hlen)]

/-- Witness for C10: success at attempt 2 of 10 after two failures,
exhaustion over 3 attempts, and the merge caller's `NameError` on a
concrete one-page pair. -/
theorem atomic_replace_retry_spec_witness :
    _atomic_replace_with_retry (fun j => decide (j = 2)) 10 (1 / 10) =
      (true, [1 / 10 * 2 ^ 0, 1 / 10 * 2 ^ 1]) ∧
    _atomic_replace_with_retry (fun _ => false) 3 (1 / 10) =
      (false, [1 / 10 * 2 ^ 0, 1 / 10 * 2 ^ 1]) ∧
    merge_pdfs_preserve_annotations
      [({ width := 612, height := 792, content := 0,
          annots := [] } : SrcPage Nat)]
      [({ width := 612, height := 792, content := 7,
          annots := [] } : SrcPage Nat)] 0 =
      .error .nameErrorOverwritePath := by
  refine ⟨?_, ?_, ?_⟩
  · have h := (atomic_replace_retry_spec (α := Nat) (β := Nat)
      (fun j => decide (j = 2)) 10 (1 / 10) 2).1
      (by omega) (by decide) (fun j hj => by interval_cases j <;> decide)
    rw [h]
    rfl
  · have h := (atomic_replace_retry_spec (α := Nat) (β := Nat)
      (fun _ => false) 3 (1 / 10) 0).2.1 (fun j _ => rfl)
    rw [h]
    rfl
  · exact (atomic_replace_retry_spec (α := Nat) (β := Nat)
      (fun _ => false) 3 (1 / 10) 0).2.2 _ _ 0 rfl

/-! ## C5: the failure-ledger circuit breaker -/

lemma digitChar_spec (d : Nat) (h : d < 10) :
    pyIsDigit (digitChar d) = true ∧ (digitChar d).toNat - 48 = d := by
  interval_cases d <;> exact ⟨by decide, by decide⟩

lemma natReprAux_zero_fuel : ∀ fuel, natReprAux fuel 0 = [] := by
  intro fuel
  cases fuel <;> rfl

lemma strToNat_append_digit (xs : Str) (c : Char) :
    strToNat (xs ++ [c]) = 10 * strToNat xs + (c.toNat - 48) := by
  simp [strToNat, List.foldl_append]

lemma natReprAux_spec : ∀ (fuel n : Nat), 0 < n → n ≤ fuel →
    strToNat (natReprAux fuel n) = n ∧
    (∀ c ∈ natReprAux fuel n, pyIsDigit c = true) ∧
    natReprAux fuel n ≠ [] := by
  intro fuel
  induction fuel with
  | zero => intro n hn hle; omega
  | succ fuel ih =>
    intro n hn hle
    obtain ⟨m, rfl⟩ : ∃ m, n = m + 1 := ⟨n - 1, by omega⟩
    have hr : (m + 1) % 10 < 10 := Nat.mod_lt _ (by omega)
    have hd := digitChar_spec _ hr
    by_cases hq : (m + 1) / 10 = 0
    · have hrep : natReprAux (fuel + 1) (m + 1) = [digitChar ((m + 1) % 10)] := by
        show natReprAux fuel ((m + 1) / 10) ++ [digitChar ((m + 1) % 10)] = _
        rw [hq, natReprAux_zero_fuel]
        rfl
      rw [hrep]
      have hmod : (m + 1) % 10 = m + 1 := by
        have := Nat.div_add_mod (m + 1) 10
        omega
      refine ⟨?_, ?_, by simp⟩
      · show 10 * 0 + ((digitChar ((m + 1) % 10)).toNat - 48) = m + 1
        rw [hd.2, hmod]
        omega
      · intro c hc
        rw [List.mem_singleton] at hc
        subst hc
        exact hd.1
    · have hqlt : (m + 1) / 10 < m + 1 := Nat.div_lt_self (by omega) (by omega)
      obtain ⟨ihv, ihd, _⟩ := ih ((m + 1) / 10) (Nat.pos_of_ne_zero hq) (by omega)
      have hrep : natReprAux (fuel + 1) (m + 1) =
          natReprAux fuel ((m + 1) / 10) ++ [digitChar ((m + 1) % 10)] := rfl
      rw [hrep]
      refine ⟨?_, ?_, by simp⟩
      · rw [strToNat_append_digit, ihv, hd.2]
        exact Nat.div_add_mod (m + 1) 10
      · intro c hc
        rcases List.mem_append.1 hc with h | h
        · exact ihd c h
        · rw [List.mem_singleton] at h
          subst h
          exact hd.1

lemma strToNat_natRepr (n : Nat) : strToNat (natRepr n) = n := by
  unfold natRepr
  by_cases h : n = 0
  · subst h; rfl
  · rw [if_neg h]
    exact (natReprAux_spec n n (Nat.pos_of_ne_zero h) le_rfl).1

lemma natRepr_digits (n : Nat) : ∀ c ∈ natRepr n, pyIsDigit c = true := by
  unfold natRepr
  by_cases h : n = 0
  · subst h
    intro c hc
    rw [if_pos rfl, List.mem_singleton] at hc
    subst hc
    decide
  · rw [if_neg h]
    exact (natReprAux_spec n n (Nat.pos_of_ne_zero h) le_rfl).2.1

lemma natRepr_ne_nil (n : Nat) : natRepr n ≠ [] := by
  unfold natRepr
  by_cases h : n = 0
  · subst h; simp
  · rw [if_neg h]
    exact (natReprAux_spec n n (Nat.pos_of_ne_zero h) le_rfl).2.2

lemma pyIsDigitStr_natRepr (n : Nat) : pyIsDigitStr (natRepr n) = true := by
  unfold pyIsDigitStr
  have h1 : (natRepr n).isEmpty = false := by
    cases hn : natRepr n with
    | nil => exact absurd hn (natRepr_ne_nil n)
    | cons a t => rfl
  rw [h1, List.all_eq_true.2 (fun c hc => natRepr_digits n c hc)]
  rfl

lemma pyIsDigit_not_special (c : Char) (h : pyIsDigit c = true) :
    pyIsSpace c = false ∧ c ≠ '\n' ∧ c ≠ ',' := by
  refine ⟨?_, ?_, ?_⟩
  · have h2 : 48 ≤ c.toNat ∧ c.toNat ≤ 57 := by
      simpa [pyIsDigit] using h
    simp only [pyIsSpace, Bool.or_eq_false_iff, beq_eq_false_iff_ne, ne_eq]
    omega
  · intro hc; rw [hc] at h; exact absurd h (by decide)
  · intro hc; rw [hc] at h; exact absurd h (by decide)

lemma dropWhile_space_eq_self (l : Str)
    (hl : ∀ c, l.head? = some c → pyIsSpace c = false) :
    l.dropWhile pyIsSpace = l := by
  cases l with
  | nil => rfl
  | cons c t =>
    rw [List.dropWhile_cons, hl c rfl]
    simp

lemma pyStrip_line (k ds : Str)
    (hk : ∀ c, k.head? = some c → pyIsSpace c = false)
    (hne : ds ≠ []) (hdig : ∀ c ∈ ds, pyIsDigit c = true) :
    pyStrip (k ++ ',' :: ds) = k ++ ',' :: ds := by
  unfold pyStrip
  have h1 : (k ++ ',' :: ds).dropWhile pyIsSpace = k ++ ',' :: ds := by
    apply dropWhile_space_eq_self
    intro c hc
    cases k with
    | nil =>
      simp only [List.nil_append, List.head?_cons, Option.some.injEq] at hc
      subst hc
      decide
    | cons a t =>
      simp only [List.cons_append, List.head?_cons, Option.some.injEq] at hc
      subst hc
      exact hk a rfl
  rw [h1]
  have h2 : (k ++ ',' :: ds).reverse.dropWhile pyIsSpace =
      (k ++ ',' :: ds).reverse := by
    apply dropWhile_space_eq_self
    intro c hc
    obtain ⟨e, t, het⟩ : ∃ e t, ds.reverse = e :: t := by
      cases hds : ds.reverse with
      | nil =>
        exact absurd (by simpa using congrArg List.reverse hds) hne
      | cons e t => exact ⟨e, t, rfl⟩
    have hrev : (k ++ ',' :: ds).reverse = e :: (t ++ ',' :: k.reverse) := by
      rw [List.reverse_append, List.reverse_cons, het]
      simp
    rw [hrev] at hc
    simp only [List.head?_cons, Option.some.injEq] at hc
    subst hc
    have hemem : e ∈ ds := by
      have h3 : e ∈ ds.reverse := by rw [het]; exact List.mem_cons_self _ _
      simpa using h3
    exact (pyIsDigit_not_special e (hdig e hemem)).1
  rw [h2, List.reverse_reverse]

lemma splitOnFirst_append (xs ys : Str) (hx : (',' : Char) ∉ xs) :
    splitOnFirst ',' (xs ++ ',' :: ys) = some (xs, ys) := by
  induction xs with
  | nil => simp [splitOnFirst]
  | cons a t ih =>
    have ha : a ≠ ',' := fun h => hx (by rw [h]; exact List.mem_cons_self _ _)
    rw [List.cons_append]
    show (if a = ',' then some ([], t ++ ',' :: ys)
      else (splitOnFirst ',' (t ++ ',' :: ys)).map
        (fun pr => (a :: pr.1, pr.2))) = _
    rw [if_neg ha, ih (fun h => hx (List.mem_cons_of_mem _ h))]
    rfl

lemma rsplitOnce_line (k ds : Str) (hdig : ∀ c ∈ ds, pyIsDigit c = true) :
    rsplitOnce ',' (k ++ ',' :: ds) = some (k, ds) := by
  unfold rsplitOnce
  have hrev : (k ++ ',' :: ds).reverse = ds.reverse ++ ',' :: k.reverse := by
    rw [List.reverse_append, List.reverse_cons]
    simp
  have hmem : (',' : Char) ∉ ds.reverse := by
    intro hmem'
    have h3 : (',' : Char) ∈ ds := by simpa using hmem'
    exact absurd rfl (pyIsDigit_not_special ',' (hdig _ h3)).2.2
  rw [hrev, splitOnFirst_append _ _ hmem]
  simp

lemma splitOnChar_append_sep (l rest : Str) (hl : ('\n' : Char) ∉ l) :
    splitOnChar '\n' (l ++ '\n' :: rest) = l :: splitOnChar '\n' rest := by
  induction l with
  | nil => simp [splitOnChar]
  | cons a t ih =>
    have ha : a ≠ '\n' := fun h => hl (by rw [h]; exact List.mem_cons_self _ _)
    have iht := ih (fun h => hl (List.mem_cons_of_mem _ h))
    rw [List.cons_append]
    show (if a = '\n' then [] :: splitOnChar '\n' (t ++ '\n' :: rest)
      else match splitOnChar '\n' (t ++ '\n' :: rest) with
        | [] => [[a]]
        | h :: t' => (a :: h) :: t') = _
    rw [if_neg ha, iht]

lemma dictGet_dictSet_self (m : CountDict) (k : Str) (v : Nat) :
    dictGet (dictSet m k v) k = some v := by
  induction m with
  | nil => simp [dictSet, dictGet, List.find?]
  | cons e t ih =>
    by_cases he : e.1 = k
    · simp [dictSet, dictGet, List.find?, he]
    · have heb : (e.1 == k) = false := beq_false_of_ne he
      simp only [dictSet, heb, Bool.false_eq_true, if_false]
      simpa only [dictGet, List.find?, heb] using ih

lemma dictGet_dictSet_ne (m : CountDict) (k k' : Str) (v : Nat)
    (h : k' ≠ k) : dictGet (dictSet m k v) k' = dictGet m k' := by
  have hkb : (k == k') = false := beq_false_of_ne (fun he => h he.symm)
  induction m with
  | nil => simp [dictSet, dictGet, List.find?, hkb]
  | cons e t ih =>
    by_cases he : e.1 = k
    · simp only [dictSet, he, beq_self_eq_true, if_true]
      simp only [dictGet, List.find?, hkb]
      rw [show (e.1 == k') = false from by rw [he]; exact hkb]
    · have heb : (e.1 == k) = false := beq_false_of_ne he
      simp only [dictSet, heb, Bool.false_eq_true, if_false]
      by_cases he' : e.1 = k'
      · simp [dictGet, List.find?, he']
      · have heb' : (e.1 == k') = false := beq_false_of_ne he'
        simp only [dictGet, List.find?, heb']
        simpa only [dictGet] using ih

lemma dictGet_mem (m : CountDict) (k : Str) (v : Nat)
    (h : dictGet m k = some v) : (k, v) ∈ m := by
  unfold dictGet at h
  cases hf : m.find? (fun e => e.1 == k) with
  | none => rw [hf] at h; simp at h
  | some e =>
    rw [hf] at h
    have h1 : e ∈ m := List.mem_of_find?_eq_some hf
    have h3 : e.1 = k := by simpa using List.find?_some hf
    have h4 : e.2 = v := by simpa using h
    have h5 : e = (k, v) := by
      cases e
      simp only at h3 h4
      rw [h3, h4]
    rwa [h5] at h1

lemma mem_dictSet_cases (m : CountDict) (k : Str) (v : Nat)
    (e : Str × Nat) (h : e ∈ dictSet m k v) : e ∈ m ∨ e.1 = k := by
  induction m with
  | nil =>
    simp only [dictSet, List.mem_singleton] at h
    right
    rw [h]
  | cons f t ih =>
    by_cases hf : f.1 = k
    · have hfb : (f.1 == k) = true := by simpa using hf
      simp only [dictSet, hfb, if_true] at h
      rcases List.mem_cons.1 h with h1 | h1
      · right; rw [h1]
      · left; exact List.mem_cons_of_mem _ h1
    · have hfb : (f.1 == k) = false := beq_false_of_ne hf
      simp only [dictSet, hfb, Bool.false_eq_true, if_false] at h
      rcases List.mem_cons.1 h with h1 | h1
      · left; rw [h1]; exact List.mem_cons_self _ _
      · rcases ih h1 with h2 | h2
        · left; exact List.mem_cons_of_mem _ h2
        · right; exact h2

lemma keys_dictSet_sub (m : CountDict) (k : Str) (v : Nat) (a : Str)
    (h : a ∈ (dictSet m k v).map (fun e => e.1)) :
    a ∈ m.map (fun e => e.1) ∨ a = k := by
  obtain ⟨e, he, ha⟩ := List.mem_map.1 h
  rcases mem_dictSet_cases m k v e he with h1 | h1
  · left; exact List.mem_map.2 ⟨e, h1, ha⟩
  · right; rw [← ha, h1]

lemma nodup_keys_dictSet (m : CountDict) (k : Str) (v : Nat)
    (h : (m.map (fun e => e.1)).Nodup) :
    ((dictSet m k v).map (fun e => e.1)).Nodup := by
  induction m with
  | nil => simp [dictSet]
  | cons f t ih =>
    rw [List.map_cons, List.nodup_cons] at h
    by_cases hf : f.1 = k
    · have hfb : (f.1 == k) = true := by simpa using hf
      simp only [dictSet, hfb, if_true, List.map_cons, List.nodup_cons]
      exact ⟨by rw [← hf]; exact h.1, h.2⟩
    · have hfb : (f.1 == k) = false := beq_false_of_ne hf
      simp only [dictSet, hfb, Bool.false_eq_true, if_false, List.map_cons,
        List.nodup_cons]
      refine ⟨?_, ih h.2⟩
      intro hmem
      rcases keys_dictSet_sub t k v f.1 hmem with h1 | h1
      · exact h.1 h1
      · exact hf h1

lemma dictGet_foldl_not_mem (es : List (Str × Nat)) (k : Str)
    (h : ∀ e ∈ es, e.1 ≠ k) :
    ∀ m0, dictGet (es.foldl (fun m e => dictSet m e.1 e.2) m0) k =
      dictGet m0 k := by
  induction es with
  | nil => intro m0; rfl
  | cons e t ih =>
    intro m0
    rw [List.foldl_cons,
      ih (fun f hf => h f (List.mem_cons_of_mem _ hf)) (dictSet m0 e.1 e.2),
      dictGet_dictSet_ne m0 e.1 k e.2
        (fun hc => h e (List.mem_cons_self _ _) hc.symm)]

lemma dictGet_foldl_mem (es : List (Str × Nat))
    (hnd : (es.map (fun e => e.1)).Nodup) (k : Str) (v : Nat)
    (hmem : (k, v) ∈ es) :
    ∀ m0, dictGet (es.foldl (fun m e => dictSet m e.1 e.2) m0) k = some v := by
  induction es with
  | nil => simp at hmem
  | cons e t ih =>
    intro m0
    rw [List.map_cons, List.nodup_cons] at hnd
    rcases List.mem_cons.1 hmem with h1 | h1
    · rw [List.foldl_cons, ← h1]
      have hnot : ∀ f ∈ t, f.1 ≠ k := by
        intro f hf hc
        apply hnd.1
        rw [← h1] at hnd ⊢
        exact List.mem_map.2 ⟨f, hf, hc⟩
      rw [dictGet_foldl_not_mem t k hnot, dictGet_dictSet_self]
    · rw [List.foldl_cons]
      exact ih hnd.2 h1 (dictSet m0 e.1 e.2)

lemma wfLedgerKey_spec (k : Str) (h : wfLedgerKey k = true) :
    (∀ c, k.head? = some c → pyIsSpace c = false) ∧ ('\n' : Char) ∉ k := by
  unfold wfLedgerKey at h
  rw [Bool.and_eq_true] at h
  constructor
  · intro c hc
    cases k with
    | nil => simp at hc
    | cons a t =>
      simp only [List.head?_cons, Option.some.injEq] at hc
      subst hc
      simpa using h.1
  · intro hmem
    have h2 := h.2
    rw [Bool.not_eq_true'] at h2
    have h3 : k.any (fun c => c == '\n') = true :=
      List.any_eq_true.2 ⟨'\n', hmem, by simp⟩
    rw [h3] at h2
    exact absurd h2 (by decide)

lemma readLedgerLine_entry (acc : CountDict) (k : Str) (v : Nat)
    (hk : ∀ c, k.head? = some c → pyIsSpace c = false) :
    readLedgerLine acc (k ++ ',' :: natRepr v) = dictSet acc k v := by
  unfold readLedgerLine
  rw [pyStrip_line k (natRepr v) hk (natRepr_ne_nil v) (natRepr_digits v),
    rsplitOnce_line k (natRepr v) (natRepr_digits v)]
  show (if pyIsDigitStr (natRepr v) = true then
    dictSet acc k (strToNat (natRepr v)) else acc) = dictSet acc k v
  rw [pyIsDigitStr_natRepr, strToNat_natRepr]
  simp

lemma readLedger_lines (es : List (Str × Nat))
    (hwf : ∀ e ∈ es, (∀ c, e.1.head? = some c → pyIsSpace c = false) ∧
      ('\n' : Char) ∉ e.1) :
    ∀ acc, (splitOnChar '\n'
        ((es.map (fun e => e.1 ++ ',' :: natRepr e.2 ++ [ '\n' ])).flatten)).foldl
        readLedgerLine acc =
      es.foldl (fun m e => dictSet m e.1 e.2) acc := by
  induction es with
  | nil => intro acc; rfl
  | cons e t ih =>
    intro acc
    have hwfe := hwf e (List.mem_cons_self _ _)
    have hnl : ('\n' : Char) ∉ e.1 ++ ',' :: natRepr e.2 := by
      intro hmem
      rcases List.mem_append.1 hmem with h | h
      · exact hwfe.2 h
      · rcases List.mem_cons.1 h with h1 | h1
        · exact absurd h1 (by decide)
        · have := natRepr_digits e.2 _ h1
          exact absurd this (by decide)
    have hassoc : (e.1 ++ ',' :: natRepr e.2 ++ [ '\n' ]) ++
        ((t.map (fun e => e.1 ++ ',' :: natRepr e.2 ++ [ '\n' ])).flatten) =
        (e.1 ++ ',' :: natRepr e.2) ++ '\n' ::
          ((t.map (fun e => e.1 ++ ',' :: natRepr e.2 ++ [ '\n' ])).flatten) := by
      simp
    rw [List.map_cons, List.flatten_cons, hassoc,
      splitOnChar_append_sep _ _ hnl, List.foldl_cons,
      readLedgerLine_entry acc e.1 e.2 hwfe.1, List.foldl_cons]
    exact ih (fun f hf => hwf f (List.mem_cons_of_mem _ hf)) _

lemma read_writeLedger (d : CountDict)
    (hwf : ∀ e ∈ d, wfLedgerKey e.1 = true)
    (hnd : (d.map (fun e => e.1)).Nodup) (k : Str) (v : Nat)
    (hget : dictGet d k = some v) :
    dictGet (read_failure_counts (writeLedger d)) k = some v := by
  unfold read_failure_counts writeLedger
  have hperm : List.Perm (d.insertionSort entryLe) d :=
    List.perm_insertionSort entryLe d
  rw [readLedger_lines (d.insertionSort entryLe)
    (fun e he => wfLedgerKey_spec e.1 (hwf e (hperm.subset he)))]
  apply dictGet_foldl_mem
  · exact ((hperm.map (fun e => e.1)).nodup_iff).2 hnd
  · exact (hperm.mem_iff).2 (dictGet_mem d k v hget)

/-- C5 counterexample: for the path `" a.pdf"` (leading space), three
increments record count 3 under the key `" a.pdf"`, but the reader's
`line.strip()` re-reads the line as key `"a.pdf"`, so the fresh
evaluation finds count 0 for the path and does NOT return
`too_many_failures` (with every optional rule disabled it returns
non-exclusion). -/
theorem ledger_breaker_fails_on_stripped_key :
    should_exclude_from_processing
      ⟨false, false, false, false, false, false, false, 500, 104857600, 1000,
        false, .ok ⟨[]⟩, .ok 5, .ok 5, false, .ok (0, 0)⟩
      ⟨strL "", strL " a.pdf", strL " a"⟩
      []
      (read_failure_counts
        (increment_and_write_failure ⟨strL "", strL " a.pdf", strL " a"⟩
          (increment_and_write_failure ⟨strL "", strL " a.pdf", strL " a"⟩
            (increment_and_write_failure ⟨strL "", strL " a.pdf", strL " a"⟩
              []).1).1).2) = none := by
  decide

/-- C5 amended: for every path whose string form starts with no
strippable whitespace and contains no newline — every normal absolute
path — and every well-formed in-memory ledger, three increments followed
by a fresh re-read of the written file and an evaluation of the
exclusion chain return exclusion with reason `too_many_failures`. -/
theorem ledger_breaker_amended (env : ExclusionEnv) (p : PyPath)
    (keywords : List Str) (counts0 : CountDict)
    (hp : wfLedgerKey p.full = true)
    (h0 : ∀ e ∈ counts0, wfLedgerKey e.1 = true)
    (hnd : (counts0.map (fun e => e.1)).Nodup) :
    should_exclude_from_processing env p keywords
      (read_failure_counts
        (increment_and_write_failure p
          (increment_and_write_failure p
            (increment_and_write_failure p counts0).1).1).2) =
      some .tooManyFailures := by
  have hwfstep : ∀ (m : CountDict) (v : Nat),
      (∀ e ∈ m, wfLedgerKey e.1 = true) →
      ∀ e ∈ dictSet m p.full v, wfLedgerKey e.1 = true := by
    intro m v hm e he
    rcases mem_dictSet_cases m p.full v e he with h1 | h1
    · exact hm e h1
    · rw [h1]; exact hp
  have w1 : ∀ e ∈ (increment_and_write_failure p counts0).1,
      wfLedgerKey e.1 = true := hwfstep counts0 _ h0
  have w2 : ∀ e ∈ (increment_and_write_failure p
      (increment_and_write_failure p counts0).1).1,
      wfLedgerKey e.1 = true := hwfstep _ _ w1
  have w3 : ∀ e ∈ (increment_and_write_failure p
      (increment_and_write_failure p
        (increment_and_write_failure p counts0).1).1).1,
      wfLedgerKey e.1 = true := hwfstep _ _ w2
  have n1 : (((increment_and_write_failure p counts0).1).map
      (fun e => e.1)).Nodup := nodup_keys_dictSet _ _ _ hnd
  have n2 : (((increment_and_write_failure p
      (increment_and_write_failure p counts0).1).1).map
      (fun e => e.1)).Nodup := nodup_keys_dictSet _ _ _ n1
  have n3 : (((increment_and_write_failure p
      (increment_and_write_failure p
        (increment_and_write_failure p counts0).1).1).1).map
      (fun e => e.1)).Nodup := nodup_keys_dictSet _ _ _ n2
  have g1 : dictGet (increment_and_write_failure p counts0).1 p.full =
      some ((dictGet counts0 p.full).getD 0 + 1) :=
    dictGet_dictSet_self _ _ _
  have g2 : dictGet (increment_and_write_failure p
      (increment_and_write_failure p counts0).1).1 p.full =
      some ((dictGet (increment_and_write_failure p counts0).1 p.full).getD 0
        + 1) := dictGet_dictSet_self _ _ _
  have g3 : dictGet (increment_and_write_failure p
      (increment_and_write_failure p
        (increment_and_write_failure p counts0).1).1).1 p.full =
      some ((dictGet (increment_and_write_failure p
        (increment_and_write_failure p counts0).1).1 p.full).getD 0 + 1) :=
    dictGet_dictSet_self _ _ _
  rw [g1] at g2
  simp only [Option.getD_some] at g2
  rw [g2] at g3
  simp only [Option.getD_some] at g3
  have hfile : (increment_and_write_failure p
      (increment_and_write_failure p
        (increment_and_write_failure p counts0).1).1).2 =
      writeLedger (increment_and_write_failure p
        (increment_and_write_failure p
          (increment_and_write_failure p counts0).1).1).1 := rfl
  rw [hfile]
  have hread := read_writeLedger _ w3 n3 p.full _ g3
  unfold should_exclude_from_processing
  rw [hread]
  rw [if_pos (by simp only [Option.getD_some]; omega)]

/-- Witness for C5's amended theorem at a concrete well-formed path and
an empty initial ledger. -/
theorem ledger_breaker_amended_witness :
    should_exclude_from_processing
      ⟨false, false, false, false, false, false, false, 500, 104857600, 1000,
        false, .ok ⟨[]⟩, .ok 5, .ok 5, false, .ok (0, 0)⟩
      ⟨strL "C:/docs/", strL "a.pdf", strL "a"⟩
      []
      (read_failure_counts
        (increment_and_write_failure ⟨strL "C:/docs/", strL "a.pdf", strL "a"⟩
          (increment_and_write_failure ⟨strL "C:/docs/", strL "a.pdf", strL "a"⟩
            (increment_and_write_failure ⟨strL "C:/docs/", strL "a.pdf", strL "a"⟩
              []).1).1).2) =
      some .tooManyFailures :=
  ledger_breaker_amended _ _ [] [] (by decide) (by decide) (by decide)

end TranslateEndNote
